import Mathlib

/-!
# Verification of the last-deploy deployment core

A shallow embedding of the last-deploy backend (Go) in Lean 4, together with
proofs about its path guard, deployment worker, job queue recovery, git
reference resolution, port parsers and compose orchestration.

Strings are modelled as `String` / `List Char`; the Go code operates on UTF-8
byte strings, and all inputs relevant to the verified properties are ASCII, so
the character-level model coincides with the byte-level one.  Machine `int`
values are modelled as `Int` with explicit wrapping at 2^64 where Go's
overflow semantics can matter.
-/

deriving instance DecidableEq for Except

namespace LastDeploy

/-! ## Character-list utilities (Go `strings` package, ASCII fragment) -/

/-- Whitespace recognised by Go's `unicode.IsSpace` restricted to ASCII
(`strings.TrimSpace` cutset). -/
def isSpaceChar (c : Char) : Bool :=
  c = ' ' || c = '\t' || c = '\n' || c = '\x0b' || c = '\x0c' || c = '\r'

/-- Drop the longest all-`p` suffix (Go `strings.TrimRight`-style helper). -/
def dropWhileEnd (p : Char → Bool) : List Char → List Char
  | [] => []
  | c :: cs =>
    let r := dropWhileEnd p cs
    if r.isEmpty && p c then [] else c :: r

/-- Go `strings.TrimSpace` on character lists. -/
def trimSpaceChars (l : List Char) : List Char :=
  (dropWhileEnd isSpaceChar l).dropWhile isSpaceChar

/-- Go `strings.TrimSpace`. -/
def stringsTrimSpace (s : String) : String :=
  ⟨trimSpaceChars s.data⟩

/-- Go `strings.Split` with a single-character separator: groups between
occurrences of `sep`, always nonempty as a list of groups. -/
def splitOnChar (sep : Char) : List Char → List (List Char)
  | [] => [[]]
  | c :: cs =>
    let r := splitOnChar sep cs
    if c = sep then [] :: r
    else
      match r with
      | [] => [[c]]
      | g :: gs => (c :: g) :: gs

/-- Go `strings.HasPrefix` on character lists (pattern first). -/
def isPreOf : List Char → List Char → Bool
  | [], _ => true
  | _ :: _, [] => false
  | p :: ps, c :: cs => p = c && isPreOf ps cs

/-- Go `strings.HasSuffix` on character lists (pattern first). -/
def isSufOf (p l : List Char) : Bool :=
  isPreOf p.reverse l.reverse

/-- Go `strings.Index` (first occurrence of a substring, character index). -/
def indexOfSub (pat : List Char) : List Char → Option Nat
  | [] => if pat.isEmpty then some 0 else none
  | c :: cs =>
    if isPreOf pat (c :: cs) then some 0
    else (indexOfSub pat cs).map (· + 1)

/-- Go `strings.ReplaceAll(s, "\\", "/")` (single-character replacement). -/
def replaceBackslashes (s : String) : String :=
  ⟨s.data.map (fun c => if c = '\\' then '/' else c)⟩

/-- Go `strings.ToUpper` restricted to ASCII letters. -/
def toUpperChars (l : List Char) : List Char :=
  l.map Char.toUpper

/-- Go `strings.Trim(s, cutset)` for a character-set cutset. -/
def trimCutset (cut : Char → Bool) (l : List Char) : List Char :=
  (dropWhileEnd cut l).dropWhile cut

/-! ## Go `path/filepath` on Linux

`filepath.Separator` is `/`, `filepath.VolumeName` is always empty and
`filepath.FromSlash`/`ToSlash` are the identity.  `Clean` is modelled at the
path-component level: a path is split into its `/`-separated components, empty
and `.` components are dropped, `..` components cancel a preceding component
(or are dropped at a root, or kept at the front of a relative path), and the
result is re-rendered.  This is exactly the observable behaviour of Go's
byte-level `Clean` algorithm. -/

def dotdot : List Char := ['.', '.']

/-- `/`-separated components of a path, with empty and `.` components
removed (these never survive `Clean`). -/
def pathComponents (l : List Char) : List (List Char) :=
  (splitOnChar '/' l).filter (fun c => !(c.isEmpty || c = ['.']))

/-- Does the path begin at the root? -/
def isRooted (l : List Char) : Bool :=
  match l with
  | c :: _ => c = '/'
  | [] => false

/-- The `..`-elimination pass of `Clean`.  `acc` holds the already-emitted
components in reverse order. -/
def cleanFold (rooted : Bool) : List (List Char) → List (List Char) → List (List Char)
  | acc, [] => acc.reverse
  | acc, comp :: rest =>
    if comp = dotdot then
      match acc with
      | top :: accTail =>
        if top = dotdot then cleanFold rooted (comp :: acc) rest
        else cleanFold rooted accTail rest
      | [] =>
        if rooted then cleanFold rooted [] rest
        else cleanFold rooted [comp] rest
    else cleanFold rooted (comp :: acc) rest

/-- Join components back into a path: `c₀/c₁/…`. -/
def intercalateSlash : List (List Char) → List Char
  | [] => []
  | [c] => c
  | c :: cs => c ++ '/' :: intercalateSlash cs

/-- Render a cleaned component list (`Clean` output format). -/
def renderPath (rooted : Bool) (cs : List (List Char)) : List Char :=
  match cs with
  | [] => if rooted then ['/'] else ['.']
  | _ => (if rooted then ['/'] else []) ++ intercalateSlash cs

/-- Go `filepath.Clean` (Linux), component-level model. -/
def cleanChars (l : List Char) : List Char :=
  renderPath (isRooted l) (cleanFold (isRooted l) [] (pathComponents l))

/-- Go `filepath.Clean`. -/
def filepathClean (s : String) : String :=
  ⟨cleanChars s.data⟩

/-- Go `filepath.IsAbs` (Linux): the path starts with `/`. -/
def filepathIsAbs (s : String) : Bool :=
  isRooted s.data

/-- Go `filepath.Join` for two elements: empty elements are skipped, the rest
are joined with `/` and cleaned; all-empty input yields `""`. -/
def filepathJoin (a b : String) : String :=
  if a = "" && b = "" then ""
  else if a = "" then filepathClean b
  else if b = "" then filepathClean a
  else ⟨cleanChars (a.data ++ '/' :: b.data)⟩

/-- Go `filepath.Abs` with the process working directory passed explicitly
(`os.Getwd` returns an absolute path). -/
def filepathAbs (cwd s : String) : String :=
  if filepathIsAbs s then filepathClean s else filepathJoin cwd s

/-- Drop elementwise-equal leading segments of two component lists
(the common-prefix scan inside Go `filepath.Rel`). -/
def dropCommon : List (List Char) → List (List Char) → List (List Char) × List (List Char)
  | [], ts => ([], ts)
  | bs, [] => (bs, [])
  | b :: bs, t :: ts =>
    if b = t then dropCommon bs ts else (b :: bs, t :: ts)

/-- Go `filepath.Rel` (Linux), component-level model of the byte-level
algorithm: clean both paths, require equal rootedness, drop the common
component prefix, refuse when the remaining base starts with `..`, and emit
one `..` per remaining base component followed by the remaining target. -/
def filepathRel (basep targp : String) : Except String String :=
  let b := cleanChars basep.data
  let t := cleanChars targp.data
  if b = t then .ok "."
  else if isRooted b ≠ isRooted t then
    .error ("Rel: can't make " ++ String.mk t ++ " relative to " ++ String.mk b)
  else
    let rem := dropCommon (pathComponents b) (pathComponents t)
    if rem.1.head? = some dotdot then
      .error ("Rel: can't make " ++ String.mk t ++ " relative to " ++ String.mk b)
    else
      .ok ⟨intercalateSlash (rem.1.map (fun _ => dotdot) ++ rem.2)⟩

/-! ## Workspace path guard (`internal/workspace`, `internal/config`) -/

/-- Escape predicate used by `SafeJoin`'s post-join containment check and by
the specification's notion of a path "falling outside" a base directory:
the target's path relative to the base is `..` or begins with `../`
(or cannot be computed at all). -/
def escapesDir (base target : String) : Bool :=
  match filepathRel base target with
  | .error _ => true
  | .ok r => r = ".." || isPreOf "../".data r.data

/-- `workspace.SafeJoin(base, rel)`.  `cwd` is the process working directory
consumed by `filepath.Abs`.  On Linux `filepath.FromSlash` is the identity and
`filepath.VolumeName` is always empty, so only the `filepath.IsAbs` test
remains of the absolute/volume check. -/
def SafeJoin (cwd base rel : String) : Except String String :=
  if base = "" then .error "base is required"
  else
    let rel := stringsTrimSpace rel
    if rel = "" || rel = "." then .ok (filepathClean base)
    else
      let normalized := replaceBackslashes rel
      if (splitOnChar '/' normalized.data).any (fun part => part = dotdot) then
        .error "invalid path: contains '..'"
      else if filepathIsAbs normalized then
        .error "invalid path: must be relative"
      else
        let joined := filepathJoin base normalized
        let absBase := filepathAbs cwd base
        let absJoined := filepathAbs cwd joined
        match filepathRel absBase absJoined with
        | .error e => .error e
        | .ok relToBase =>
          if relToBase = ".." || isPreOf "../".data relToBase.data then
            .error "invalid path: escapes base dir"
          else .ok joined

/-- `config.Config` (the fields the worker consumes). -/
structure Config where
  dataDir : String
  hostDataDir : String
deriving DecidableEq, Repr

/-- `config.Config.ReposDir()`. -/
def Config.reposDir (c : Config) : String :=
  filepathJoin c.dataDir "repos"

/-- `workspace.RepoDir`. -/
def RepoDir (cfg : Config) (projectID : String) : String :=
  filepathJoin cfg.reposDir projectID

/-- `store.Project` (the fields the worker consumes). -/
structure Project where
  id : String
  name : String
  gitURL : String
  gitRef : String
  repoSubdir : String
  deployType : String
  composeFile : String
  composeService : String
  dockerfilePath : String
  dockerfileContent : String
  composeContent : String
  hostPort : Int
  containerPort : Int
  lastStatus : String
  lastStatusAt : Option Int
  deletedAt : Option Int
deriving DecidableEq, Repr

/-- `workspace.WorkDir`. -/
def WorkDir (cwd : String) (cfg : Config) (p : Project) : Except String String :=
  let repoDir := RepoDir cfg p.id
  if p.repoSubdir = "" then .ok repoDir
  else SafeJoin cwd repoDir p.repoSubdir

/-- `workspace.HostWorkDir`. -/
def HostWorkDir (cwd : String) (cfg : Config) (p : Project) : Except String String :=
  if cfg.hostDataDir = "" then .ok ""
  else
    let hostRepoDir := filepathJoin (filepathJoin cfg.hostDataDir "repos") p.id
    if p.repoSubdir = "" then .ok hostRepoDir
    else SafeJoin cwd hostRepoDir p.repoSubdir

/-! ## Port parsers (`internal/api`) -/

/-- Two's-complement wrap-around of Go's 64-bit `int`. -/
def wrap64 (n : Int) : Int :=
  (n + 2 ^ 63) % 2 ^ 64 - 2 ^ 63

/-- The digit-accumulation loop shared by both parsers:
`for _, ch := range s { if ch is a digit { v = v*10 + int(ch-'0') } }`.
Every digit character contributes; non-digits are skipped (they do not
terminate the scan). -/
def digitsVal64 (l : List Char) : Int :=
  l.foldl
    (fun acc c =>
      if '0' ≤ c ∧ c ≤ '9' then wrap64 (wrap64 (acc * 10) + ((c.toNat : Int) - ('0'.toNat : Int)))
      else acc)
    0

/-- `api.parseDockerfilePort`: first `EXPOSE` line yielding a value in
`[1, 65535]`. -/
def parseDockerfilePort (content : String) : Int :=
  loop (splitOnChar '\n' content.data)
where
  loop : List (List Char) → Int
    | [] => 0
    | line :: rest =>
      let line := trimSpaceChars line
      let upper := toUpperChars line
      if isPreOf "EXPOSE ".data upper then
        let portStr := trimSpaceChars (upper.drop 7)
        let portStr := ((splitOnChar '/' portStr).headD [])
        let portStr := ((splitOnChar ' ' portStr).headD [])
        let port := digitsVal64 portStr
        if 0 < port ∧ port ≤ 65535 then port else loop rest
      else loop rest

/-- `api.isComposeKeyword`. -/
def isComposeKeyword (name : String) : Bool :=
  ["ports", "volumes", "environment", "depends_on", "networks",
   "build", "image", "container_name", "restart", "command",
   "entrypoint", "labels", "expose", "healthcheck", "logging",
   "deploy", "configs", "secrets", "ulimits", "sysctls"].contains name

/-- Parse one `- "H:C"` list entry inside a `ports:` block: strip the leading
`-`, surrounding whitespace and quotes, split on `:`, digit-parse the part of
each side before any `/`, and accept when both values lie in `[1, 65535]`. -/
def composePortEntry (trimmed : List Char) : Option (Int × Int) :=
  let portStr := trimSpaceChars (trimmed.drop 1)
  let portStr := trimCutset (fun c => c = '"' || c = '\'') portStr
  match splitOnChar ':' portStr with
  | p0 :: p1 :: _ =>
    let hp := digitsVal64 ((splitOnChar '/' p0).headD [])
    let cp := digitsVal64 ((splitOnChar '/' p1).headD [])
    if (0 < hp ∧ hp ≤ 65535) ∧ (0 < cp ∧ cp ≤ 65535) then some (hp, cp) else none
  | _ => none

/-- Parser flags of `api.parseComposePort` (in the `services:` block / inside
the target service / inside its `ports:` list, plus the target service's
indentation). -/
structure CState where
  inServices : Bool
  inService : Bool
  inPorts : Bool
  serviceIndent : Int
deriving DecidableEq, Repr

def CState.init : CState :=
  ⟨false, false, false, -1⟩

/-- Leading-whitespace width of a raw line:
`len(line) - len(strings.TrimLeft(line, " \t"))`. -/
def lineIndent (line : List Char) : Int :=
  ((line.length : Int) - ((line.dropWhile (fun c => c = ' ' || c = '\t')).length : Int))

/-- `api.parseComposePort`, transcribed statement by statement.  Each
iteration handles, in order: blank/comment skip, the `services:` marker, the
`ports:` marker inside the current service, a `- …` port entry (returning on
the first valid pair), the `ports:`-exit reset, service-name detection
(skipping reserved keywords), and the service-exit check (which stops the
whole scan when a specific service was requested). -/
def composeLoop (serviceName : String) : CState → List (List Char) → Int × Int
  | _, [] => (0, 0)
  | s, line :: rest =>
    let trimmed := trimSpaceChars line
    if trimmed.isEmpty || isPreOf "#".data trimmed then composeLoop serviceName s rest
    else
      let indent := lineIndent line
      if trimmed = "services:".data then
        composeLoop serviceName { s with inServices := true, serviceIndent := -1 } rest
      else if s.inService ∧ trimmed = "ports:".data then
        composeLoop serviceName { s with inPorts := true } rest
      else
        match (if s.inPorts ∧ isPreOf "-".data trimmed then composePortEntry trimmed else none) with
        | some pair => pair
        | none =>
          let s := if s.inPorts ∧ ¬ isPreOf "-".data trimmed then { s with inPorts := false } else s
          if s.inServices ∧ isSufOf ":".data trimmed ∧ 0 < indent ∧ indent ≤ 4 then
            let svcName : String := ⟨trimmed.dropLast⟩
            if isComposeKeyword svcName then composeLoop serviceName s rest
            else if serviceName = "" ∨ svcName = serviceName then
              composeLoop serviceName
                { s with inService := true, serviceIndent := indent, inPorts := false } rest
            else
              exitCheck serviceName s trimmed indent rest
          else
            exitCheck serviceName s trimmed indent rest
where
  /-- The trailing service-exit check of each loop iteration. -/
  exitCheck (serviceName : String) (s : CState) (trimmed : List Char) (indent : Int)
      (rest : List (List Char)) : Int × Int :=
    if s.inService ∧ 0 ≤ s.serviceIndent ∧ indent ≤ s.serviceIndent ∧ ¬ isPreOf "-".data trimmed then
      if serviceName ≠ "" then (0, 0)
      else composeLoop serviceName { s with inService := false, inPorts := false } rest
    else composeLoop serviceName s rest

/-- `api.parseComposePort`. -/
def parseComposePort (content serviceName : String) : Int × Int :=
  if content = "" then (0, 0)
  else composeLoop serviceName CState.init (splitOnChar '\n' content.data)

/-! ## Compose orchestration (`internal/engine/compose.go`) -/

/-- `engine.DeployType`. -/
inductive DeployType where
  | dockerfile
  | compose
deriving DecidableEq, Repr

/-- Go `strings.ToLower` restricted to ASCII letters. -/
def toLowerChars (l : List Char) : List Char :=
  l.map Char.toLower

/-- `engine.ResolveDeployType`. -/
def ResolveDeployType (deployType composeFile : String) : DeployType :=
  let dt : String := ⟨toLowerChars (trimSpaceChars deployType.data)⟩
  if dt = "compose" then .compose
  else if dt = "dockerfile" then .dockerfile
  else if stringsTrimSpace composeFile ≠ "" then .compose
  else .dockerfile

/-- The service-name pattern `^[a-zA-Z0-9][a-zA-Z0-9_.-]*$`
(`engine.composeServiceRe`, ASCII byte classes). -/
def composeServiceRe (s : String) : Bool :=
  match s.data with
  | [] => false
  | c :: cs =>
    (c.isAlpha || c.isDigit) &&
      cs.all (fun d => d.isAlpha || d.isDigit || d = '_' || d = '.' || d = '-')

/-- `engine.parseComposeServices`: comma-separated selector to service list. -/
def parseComposeServices (serviceStr : String) : List String :=
  let serviceStr := stringsTrimSpace serviceStr
  if serviceStr = "" then []
  else
    ((splitOnChar ',' serviceStr.data).map (fun s => (⟨trimSpaceChars s⟩ : String))).filter
      (fun s => s ≠ "")

/-- `engine.normalizeComposeFile`: strip an accidental repository-path
recorded before the project's directory name (legacy rows stored
`data/repos/<id>/docker-compose.yml`). -/
def normalizeComposeFile (composeFile projectID : String) : String :=
  let normalized := replaceBackslashes composeFile
  match indexOfSub (projectID.data ++ ['/']) normalized.data with
  | some idx => ⟨normalized.data.drop (idx + projectID.data.length + 1)⟩
  | none => composeFile

/-- `engine.ComposeSpec`. -/
structure ComposeSpec where
  projectID : String
  workDir : String
  hostWorkDir : String
  composeFile : String
  composeService : String
deriving DecidableEq, Repr

/-- The generated override manifest of `engine.writeComposeOverride`:
attaches the project-id label to exactly the requested services. -/
def composeOverrideContent (projectID : String) (services : List String) : String :=
  "services:\n" ++ String.join (services.map (fun svc =>
    "  " ++ svc ++ ":\n    labels:\n      com.last-deploy.project_id: \"" ++ projectID ++ "\"\n"))

/-- The pure core of `engine.runComposeUpStop`: validation and the `docker`
argument vector.  `overridePath` stands for the temporary override file name
produced by `os.CreateTemp`.  Returns the full argument list and the override
file (with its content) when one is generated. -/
def composeCmdArgs (overridePath : String) (spec : ComposeSpec) (args : List String) :
    Except String (List String × Option (String × String)) :=
  if spec.projectID = "" then .error "project id is required"
  else if spec.workDir = "" then .error "work dir is required"
  else if stringsTrimSpace spec.composeFile = "" then .error "compose_file is required"
  else
    let services := parseComposeServices spec.composeService
    match services.find? (fun svc => ¬ composeServiceRe svc) with
    | some svc => .error ("invalid compose_service: " ++ svc)
    | none =>
      let composeFile := normalizeComposeFile spec.composeFile spec.projectID
      let composeFile :=
        if filepathIsAbs composeFile then composeFile
        else filepathJoin spec.workDir composeFile
      let projectName := "last-deploy-" ++ spec.projectID
      let base := ["compose", "-p", projectName, "-f", composeFile]
      if services.isEmpty then
        .ok (base ++ args, none)
      else
        .ok (base ++ ["-f", overridePath] ++ args ++ services,
             some (overridePath, composeOverrideContent spec.projectID services))

/-! ## Record store (`internal/store`)

The SQLite store is modelled as in-memory lists; each accessor mirrors its
SQL statement.  `updated_at` bookkeeping is not observable through any
verified property and is omitted.  DB-level failures are outside the model:
the accessors are total, matching the worker's use where their error results
are discarded (`_ =`). -/

structure Job where
  id : String
  projectID : String
  jobType : String
  status : String
  currentStep : String
  log : String
  error : String
  requestedAt : Int
  startedAt : Option Int
  finishedAt : Option Int
deriving DecidableEq, Repr

structure Store where
  projects : List Project
  jobs : List Job
deriving DecidableEq, Repr

/-- `Store.GetJob`: `SELECT … FROM jobs WHERE id = ?`. -/
def Store.getJob (st : Store) (id : String) : Option Job :=
  st.jobs.find? (fun j => j.id == id)

/-- `Store.GetProject`: `SELECT … FROM projects WHERE id = ? AND deleted_at IS NULL`. -/
def Store.getProject (st : Store) (id : String) : Option Project :=
  st.projects.find? (fun p => p.id == id && p.deletedAt == none)

/-- `UPDATE jobs SET … WHERE id = ?`. -/
def Store.updateJob (st : Store) (id : String) (f : Job → Job) : Store :=
  { st with jobs := st.jobs.map (fun j => if j.id == id then f j else j) }

/-- `UPDATE projects SET … WHERE id = ? AND deleted_at IS NULL`. -/
def Store.updateLiveProject (st : Store) (id : String) (f : Project → Project) : Store :=
  { st with projects := st.projects.map (fun p => if p.id == id && p.deletedAt == none then f p else p) }

def Store.setJobRunning (st : Store) (id step : String) (now : Int) : Store :=
  st.updateJob id (fun j => { j with status := "running", currentStep := step, startedAt := some now })

def Store.setJobStep (st : Store) (id step : String) : Store :=
  st.updateJob id (fun j => { j with currentStep := step })

def Store.appendJobLog (st : Store) (id line : String) : Store :=
  st.updateJob id (fun j => { j with log := j.log ++ line })

def Store.setJobFailed (st : Store) (id msg : String) (now : Int) : Store :=
  st.updateJob id (fun j => { j with status := "failed", error := msg, finishedAt := some now })

def Store.setJobSucceeded (st : Store) (id : String) (now : Int) : Store :=
  st.updateJob id (fun j => { j with status := "succeeded", finishedAt := some now })

def Store.setProjectStatus (st : Store) (id status : String) (now : Int) : Store :=
  st.updateLiveProject id (fun p => { p with lastStatus := status, lastStatusAt := some now })

def Store.markProjectDeleted (st : Store) (id : String) (now : Int) : Store :=
  st.updateLiveProject id
    (fun p => { p with deletedAt := some now, lastStatus := "deleted", lastStatusAt := some now })

/-- Ascending order on job request times (`ORDER BY requested_at ASC`). -/
def jobReqLE (a b : Job) : Prop :=
  a.requestedAt ≤ b.requestedAt

instance : DecidableRel jobReqLE := fun a b => Int.decLe a.requestedAt b.requestedAt

instance : IsTotal Job jobReqLE := ⟨fun a b => Int.le_total a.requestedAt b.requestedAt⟩

instance : IsTrans Job jobReqLE := ⟨fun _ _ _ h h' => le_trans h h'⟩

/-- `Store.ListJobsByStatus`:
`SELECT … FROM jobs WHERE status = ? ORDER BY requested_at ASC`. -/
def Store.listJobsByStatus (st : Store) (status : String) : List Job :=
  List.insertionSort jobReqLE (st.jobs.filter (fun j => j.status == status))

/-! ## Job queue (`internal/jobs/queue.go`)

The queue's channel is modelled as the list of identifiers handed to the
consumer, in order; `Enqueue` appends. -/

def Enqueue (q : List String) (jobID : String) : List String :=
  q ++ [jobID]

/-- `jobs.EnqueuePersisted`: re-enqueue every stored job still `queued`,
oldest request first. -/
def EnqueuePersisted (st : Store) (q : List String) : List String :=
  (st.listJobsByStatus "queued").foldl (fun q j => Enqueue q j.id) q

/-! ## Git synchronizer (`internal/engine`, `checkoutRef`)

A repository is modelled by its two lookup capabilities: resolved reference
lookup (`repo.Reference(name, true)`) and revision-expression resolution
(`repo.ResolveRevision`), each returning the commit hash it resolves to.
`wt.Checkout` itself is represented by the hash handed to it. -/

structure GitRepo where
  reference : String → Option String
  resolveRevision : String → Option String

/-- The `\A[0-9a-fA-F]{40}\z` test (`engine.hex40`). -/
def isHex40 (s : String) : Bool :=
  s.data.length == 40 &&
    s.data.all (fun c =>
      c.isDigit || (decide ('a' ≤ c) && decide (c ≤ 'f')) || (decide ('A' ≤ c) && decide (c ≤ 'F')))

/-- `engine.checkoutRef`: `.ok none` means no checkout was performed,
`.ok (some h)` that commit hash `h` was checked out. -/
def checkoutRef (repo : GitRepo) (ref : String) : Except String (Option String) :=
  if ref = "" then .ok none
  else if isHex40 ref then .ok (some ref)
  else
    let candidates :=
      [ref,
       "refs/remotes/origin/" ++ ref,
       "refs/tags/" ++ ref,
       "refs/heads/" ++ ref]
    match candidates.findSome? repo.reference with
    | some h => .ok (some h)
    | none =>
      let revCandidates :=
        [ref,
         "origin/" ++ ref,
         "refs/remotes/origin/" ++ ref,
         "refs/tags/" ++ ref,
         "refs/heads/" ++ ref]
      match revCandidates.findSome? repo.resolveRevision with
      | some h => .ok (some h)
      | none => .error ("unknown git_ref: \"" ++ ref ++ "\"")

/-! ## Deployment worker (`internal/jobs/worker.go`)

External side effects (git, the Docker daemon, the compose subprocess, file
writes) are recorded in an effect trace; their outcomes are supplied by a
`WorkerEnv` oracle, one field per external call site.  Engine-internal
validation that cannot fire from the worker (non-empty project id, context
dir) is folded into the corresponding oracle result. -/

inductive Effect where
  | gitSync (url ref dir : String)
  | writeFile (path content : String)
  | composeOverrideWrite (path content : String)
  | composeCmd (workDir : String) (args : List String)
  | removeContainers (projectID : String)
  | removeNetworksByName (pre : String)
  | removeImage (tag : String)
  | removeDir (path : String)
  | dockerBuild (contextDir dockerfilePath tag : String)
  | dockerRun (projectID : String) (hostPort containerPort : Int)
  | startContainers (projectID : String)
  | stopContainers (projectID : String) (timeoutSeconds : Int)
  | pauseContainers (projectID : String)
  | unpauseContainers (projectID : String)
deriving DecidableEq, Repr

structure WorkerEnv where
  now : Int
  nowStr : String
  repoExists : Bool
  cloneResult : Except String Unit
  writeDockerfileResult : Except String Unit
  writeComposeResult : Except String Unit
  newDockerResult : Except String Unit
  removeContainersResult : Except String Unit
  buildResult : Except String Unit
  runResult : Except String Unit
  composeUpResult : Except String Unit
  composeStopResult : Except String Unit
  composePauseResult : Except String Unit
  composeUnpauseResult : Except String Unit
  dockerStartResult : Except String Int
  dockerStopResult : Except String Int
  dockerPauseResult : Except String Int
  dockerUnpauseResult : Except String Int
  removeNetworksResult : Except String Unit
  removeImageResult : Except String Unit
  removeRepoDirResult : Except String Unit
  overridePath : String
  overrideWriteResult : Except String Unit
deriving DecidableEq, Repr

/-- Result of one worker sub-operation: updated store, external effects in
order, and the Go error result. -/
structure OpOut where
  store : Store
  fx : List Effect
  res : Except String Unit
deriving DecidableEq, Repr

/-- `engine.runComposeUpStop` (effectful part): build the argument vector,
write the override file when services are selected, invoke `docker`. -/
def runComposeUpStop (env : WorkerEnv) (result : Except String Unit) (spec : ComposeSpec)
    (args : List String) : List Effect × Except String Unit :=
  match composeCmdArgs env.overridePath spec args with
  | .error e => ([], .error e)
  | .ok (cmdArgs, none) => ([.composeCmd spec.workDir cmdArgs], result)
  | .ok (cmdArgs, some (path, content)) =>
    match env.overrideWriteResult with
    | .error e => ([], .error e)
    | .ok _ => ([.composeOverrideWrite path content, .composeCmd spec.workDir cmdArgs], result)

/-- `Worker.cloneProject`. -/
def cloneProject (env : WorkerEnv) (cfg : Config) (p : Project) (jobID : String) (st : Store) :
    OpOut :=
  let repoDir := RepoDir cfg p.id
  let st := st.setJobStep jobID "sync_repo"
  let st := st.appendJobLog jobID
    (if env.repoExists then "fetching " ++ p.gitURL ++ "\n" else "cloning " ++ p.gitURL ++ "\n")
  ⟨st, [.gitSync p.gitURL p.gitRef repoDir], env.cloneResult⟩

/-- `Worker.dockerfileDeploy`. -/
def dockerfileDeploy (env : WorkerEnv) (cwd : String) (cfg : Config) (p : Project)
    (jobID : String) (st : Store) : OpOut :=
  match env.newDockerResult with
  | .error e => ⟨st, [], .error e⟩
  | .ok _ =>
    let st := st.setJobStep jobID "docker_cleanup"
    match env.removeContainersResult with
    | .error e => ⟨st, [.removeContainers p.id], .error e⟩
    | .ok _ =>
      match WorkDir cwd cfg p with
      | .error e => ⟨st, [.removeContainers p.id], .error ("work dir: " ++ e)⟩
      | .ok workDir =>
        let st := st.setJobStep jobID "docker_build"
        match env.buildResult with
        | .error e =>
          ⟨st, [.removeContainers p.id, .dockerBuild workDir p.dockerfilePath ("last-deploy:" ++ p.id)],
            .error e⟩
        | .ok _ =>
          let st := st.setJobStep jobID "docker_run"
          ⟨st,
            [.removeContainers p.id, .dockerBuild workDir p.dockerfilePath ("last-deploy:" ++ p.id),
             .dockerRun p.id p.hostPort p.containerPort],
            env.runResult⟩

/-- The shared shape of `Worker.composeUp/Stop/Pause/Unpause`: set the step,
resolve the work dirs (`HostWorkDir`'s error is discarded) and invoke the
compose subcommand. -/
def workerComposeOp (env : WorkerEnv) (cwd : String) (cfg : Config) (p : Project)
    (jobID step : String) (result : Except String Unit) (args : List String) (st : Store) :
    OpOut :=
  let st := st.setJobStep jobID step
  match WorkDir cwd cfg p with
  | .error e => ⟨st, [], .error ("work dir: " ++ e)⟩
  | .ok workDir =>
    let hostWorkDir := ((HostWorkDir cwd cfg p).toOption).getD ""
    let spec : ComposeSpec := ⟨p.id, workDir, hostWorkDir, p.composeFile, p.composeService⟩
    let (fx, res) := runComposeUpStop env result spec args
    ⟨st, fx, res⟩

def workerComposeUp (env : WorkerEnv) (cwd : String) (cfg : Config) (p : Project)
    (jobID : String) (st : Store) : OpOut :=
  workerComposeOp env cwd cfg p jobID "compose_up" env.composeUpResult ["up", "-d"] st

def workerComposeStop (env : WorkerEnv) (cwd : String) (cfg : Config) (p : Project)
    (jobID : String) (st : Store) : OpOut :=
  workerComposeOp env cwd cfg p jobID "compose_stop" env.composeStopResult ["stop"] st

def workerComposePause (env : WorkerEnv) (cwd : String) (cfg : Config) (p : Project)
    (jobID : String) (st : Store) : OpOut :=
  workerComposeOp env cwd cfg p jobID "compose_pause" env.composePauseResult ["pause"] st

def workerComposeUnpause (env : WorkerEnv) (cwd : String) (cfg : Config) (p : Project)
    (jobID : String) (st : Store) : OpOut :=
  workerComposeOp env cwd cfg p jobID "compose_unpause" env.composeUnpauseResult ["unpause"] st

/-- `Worker.deploy`. -/
def deploy (env : WorkerEnv) (cwd : String) (cfg : Config) (p : Project) (jobID : String)
    (st : Store) : OpOut :=
  let st := st.setJobStep jobID "set_project_status"
  let st := st.setProjectStatus p.id "deploying" env.now
  let c := cloneProject env cfg p jobID st
  match c.res with
  | .error e => ⟨c.store.setProjectStatus p.id "failed" env.now, c.fx, .error e⟩
  | .ok _ =>
    match WorkDir cwd cfg p with
    | .error e =>
      ⟨c.store.setProjectStatus p.id "failed" env.now, c.fx, .error ("work dir: " ++ e)⟩
    | .ok workDir =>
      let st := c.store
      let fx := c.fx
      -- materialize the literal Dockerfile text, if any
      let dwrite : Store × List Effect × Option String :=
        if p.dockerfileContent ≠ "" ∧ p.dockerfilePath ≠ "" then
          let fullPath := filepathJoin workDir p.dockerfilePath
          match env.writeDockerfileResult with
          | .error e =>
            (st, fx ++ [.writeFile fullPath p.dockerfileContent], some ("write dockerfile: " ++ e))
          | .ok _ =>
            (st.appendJobLog jobID ("wrote Dockerfile to " ++ p.dockerfilePath ++ "\n"),
             fx ++ [.writeFile fullPath p.dockerfileContent], none)
        else (st, fx, none)
      match dwrite with
      | (st, fx, some e) => ⟨st.setProjectStatus p.id "failed" env.now, fx, .error e⟩
      | (st, fx, none) =>
        -- materialize the literal compose text, if any
        let cwrite : Store × List Effect × Option String :=
          if p.composeContent ≠ "" ∧ p.composeFile ≠ "" then
            let fullPath := filepathJoin workDir p.composeFile
            match env.writeComposeResult with
            | .error e =>
              (st, fx ++ [.writeFile fullPath p.composeContent], some ("write compose: " ++ e))
            | .ok _ =>
              (st.appendJobLog jobID ("wrote docker-compose to " ++ p.composeFile ++ "\n"),
               fx ++ [.writeFile fullPath p.composeContent], none)
          else (st, fx, none)
        match cwrite with
        | (st, fx, some e) => ⟨st.setProjectStatus p.id "failed" env.now, fx, .error e⟩
        | (st, fx, none) =>
          match ResolveDeployType p.deployType p.composeFile with
          | .compose =>
            let u := workerComposeUp env cwd cfg p jobID st
            match u.res with
            | .error e => ⟨u.store.setProjectStatus p.id "failed" env.now, fx ++ u.fx, .error e⟩
            | .ok _ =>
              ⟨u.store.setProjectStatus p.id "running" env.now, fx ++ u.fx, .ok ()⟩
          | .dockerfile =>
            let d := dockerfileDeploy env cwd cfg p jobID st
            match d.res with
            | .error e => ⟨d.store.setProjectStatus p.id "failed" env.now, fx ++ d.fx, .error e⟩
            | .ok _ =>
              ⟨d.store.setProjectStatus p.id "running" env.now, fx ++ d.fx, .ok ()⟩

/-- `Worker.start`. -/
def startOp (env : WorkerEnv) (cwd : String) (cfg : Config) (p : Project) (jobID : String)
    (st : Store) : OpOut :=
  let branch : OpOut :=
    match ResolveDeployType p.deployType p.composeFile with
    | .compose =>
      let c := cloneProject env cfg p jobID st
      match c.res with
      | .error e => ⟨c.store, c.fx, .error e⟩
      | .ok _ =>
        let u := workerComposeUp env cwd cfg p jobID c.store
        ⟨u.store, c.fx ++ u.fx, u.res⟩
    | .dockerfile =>
      match env.newDockerResult with
      | .error e => ⟨st, [], .error e⟩
      | .ok _ =>
        let st := st.setJobStep jobID "docker_start"
        match env.dockerStartResult with
        | .error e => ⟨st, [.startContainers p.id], .error e⟩
        | .ok n =>
          ⟨st.appendJobLog jobID ("started " ++ toString n ++ " container(s)\n"),
            [.startContainers p.id], .ok ()⟩
  match branch.res with
  | .error _ => branch
  | .ok _ => { branch with store := branch.store.setProjectStatus p.id "running" env.now }

/-- `Worker.stop`. -/
def stopOp (env : WorkerEnv) (cwd : String) (cfg : Config) (p : Project) (jobID : String)
    (st : Store) : OpOut :=
  let branch : OpOut :=
    match ResolveDeployType p.deployType p.composeFile with
    | .compose =>
      let c := cloneProject env cfg p jobID st
      match c.res with
      | .error e => ⟨c.store, c.fx, .error e⟩
      | .ok _ =>
        let u := workerComposeStop env cwd cfg p jobID c.store
        ⟨u.store, c.fx ++ u.fx, u.res⟩
    | .dockerfile =>
      match env.newDockerResult with
      | .error e => ⟨st, [], .error e⟩
      | .ok _ =>
        let st := st.setJobStep jobID "docker_stop"
        match env.dockerStopResult with
        | .error e => ⟨st, [.stopContainers p.id 10], .error e⟩
        | .ok n =>
          ⟨st.appendJobLog jobID ("stopped " ++ toString n ++ " container(s)\n"),
            [.stopContainers p.id 10], .ok ()⟩
  match branch.res with
  | .error _ => branch
  | .ok _ => { branch with store := branch.store.setProjectStatus p.id "stopped" env.now }

/-- `Worker.pause`. -/
def pauseOp (env : WorkerEnv) (cwd : String) (cfg : Config) (p : Project) (jobID : String)
    (st : Store) : OpOut :=
  let branch : OpOut :=
    match ResolveDeployType p.deployType p.composeFile with
    | .compose =>
      let c := cloneProject env cfg p jobID st
      match c.res with
      | .error e => ⟨c.store, c.fx, .error e⟩
      | .ok _ =>
        let u := workerComposePause env cwd cfg p jobID c.store
        ⟨u.store, c.fx ++ u.fx, u.res⟩
    | .dockerfile =>
      match env.newDockerResult with
      | .error e => ⟨st, [], .error e⟩
      | .ok _ =>
        let st := st.setJobStep jobID "docker_pause"
        match env.dockerPauseResult with
        | .error e => ⟨st, [.pauseContainers p.id], .error e⟩
        | .ok n =>
          ⟨st.appendJobLog jobID ("paused " ++ toString n ++ " container(s)\n"),
            [.pauseContainers p.id], .ok ()⟩
  match branch.res with
  | .error _ => branch
  | .ok _ => { branch with store := branch.store.setProjectStatus p.id "paused" env.now }

/-- `Worker.unpause`. -/
def unpauseOp (env : WorkerEnv) (cwd : String) (cfg : Config) (p : Project) (jobID : String)
    (st : Store) : OpOut :=
  let branch : OpOut :=
    match ResolveDeployType p.deployType p.composeFile with
    | .compose =>
      let c := cloneProject env cfg p jobID st
      match c.res with
      | .error e => ⟨c.store, c.fx, .error e⟩
      | .ok _ =>
        let u := workerComposeUnpause env cwd cfg p jobID c.store
        ⟨u.store, c.fx ++ u.fx, u.res⟩
    | .dockerfile =>
      match env.newDockerResult with
      | .error e => ⟨st, [], .error e⟩
      | .ok _ =>
        let st := st.setJobStep jobID "docker_unpause"
        match env.dockerUnpauseResult with
        | .error e => ⟨st, [.unpauseContainers p.id], .error e⟩
        | .ok n =>
          ⟨st.appendJobLog jobID ("unpaused " ++ toString n ++ " container(s)\n"),
            [.unpauseContainers p.id], .ok ()⟩
  match branch.res with
  | .error _ => branch
  | .ok _ => { branch with store := branch.store.setProjectStatus p.id "running" env.now }

/-- `Worker.delete`: the three Docker removals and the working-copy removal
are attempted unconditionally and their error results discarded (`_ =` in the
source); the operation never branches on the deploy type. -/
def deleteOp (env : WorkerEnv) (cfg : Config) (p : Project) (jobID : String) (st : Store) :
    OpOut :=
  match env.newDockerResult with
  | .error e => ⟨st, [], .error e⟩
  | .ok _ =>
    let st := st.setJobStep jobID "docker_cleanup"
    let _ := env.removeContainersResult
    let _ := env.removeNetworksResult
    let _ := env.removeImageResult
    let fx := [Effect.removeContainers p.id,
               Effect.removeNetworksByName ("last-deploy-" ++ p.id),
               Effect.removeImage ("last-deploy:" ++ p.id)]
    let st := st.setJobStep jobID "remove_repo"
    let _ := env.removeRepoDirResult
    let fx := fx ++ [Effect.removeDir (RepoDir cfg p.id)]
    let st := st.setJobStep jobID "mark_deleted"
    ⟨st.markProjectDeleted p.id env.now, fx, .ok ()⟩

/-- `Worker.fail`. -/
def failJob (env : WorkerEnv) (st : Store) (jobID e : String) : Store :=
  (st.appendJobLog jobID (env.nowStr ++ " error: " ++ e ++ "\n")).setJobFailed jobID e env.now

/-- `Worker.runJob`: the per-job state machine driver. -/
def runJob (env : WorkerEnv) (cwd : String) (cfg : Config) (st : Store) (jobID : String) :
    Store × List Effect :=
  match st.getJob jobID with
  | none => (st, [])
  | some job =>
    if job.status ≠ "queued" then (st, [])
    else
      let st := st.setJobRunning jobID "init" env.now
      let st := st.appendJobLog jobID (env.nowStr ++ " job started\n")
      match st.getProject job.projectID with
      | none => (failJob env st jobID "load project: not found", [])
      | some project =>
        let o : OpOut :=
          match job.jobType with
          | "deploy" => deploy env cwd cfg project jobID st
          | "start" => startOp env cwd cfg project jobID st
          | "stop" => stopOp env cwd cfg project jobID st
          | "pause" => pauseOp env cwd cfg project jobID st
          | "unpause" => unpauseOp env cwd cfg project jobID st
          | "delete" => deleteOp env cfg project jobID st
          | t => ⟨st, [], .error ("unknown job type: \"" ++ t ++ "\"")⟩
        match o.res with
        | .error e => (failJob env o.store jobID e, o.fx)
        | .ok _ =>
          ((o.store.appendJobLog jobID (env.nowStr ++ " job finished\n")).setJobSucceeded jobID env.now,
           o.fx)

/-! ## Store lemma kit -/

theorem projects_updateJob (st : Store) (id : String) (f : Job → Job) :
    (st.updateJob id f).projects = st.projects := rfl

theorem jobs_updateLiveProject (st : Store) (id : String) (f : Project → Project) :
    (st.updateLiveProject id f).jobs = st.jobs := rfl

@[simp] theorem getProject_updateJob (st : Store) (id pid : String) (f : Job → Job) :
    (st.updateJob id f).getProject pid = st.getProject pid := rfl

@[simp] theorem getJob_updateLiveProject (st : Store) (id jid : String) (f : Project → Project) :
    (st.updateLiveProject id f).getJob jid = st.getJob jid := rfl

theorem find?_cons_pos {α : Type} (P : α → Bool) (x : α) (xs : List α) (h : P x = true) :
    (x :: xs).find? P = some x := by
  simp [List.find?_cons, h]

theorem find?_cons_neg {α : Type} (P : α → Bool) (x : α) (xs : List α) (h : P x = false) :
    (x :: xs).find? P = xs.find? P := by
  simp [List.find?_cons, h]

theorem find?_sat {α : Type} (P : α → Bool) (a : α) {l : List α} (h : l.find? P = some a) :
    P a = true :=
  List.find?_some h

/-- `find?` over a conditional map: when the updated image still satisfies the
predicate, the first match is updated in place. -/
theorem find?_map_if {α : Type} (P : α → Bool) (g : α → α) :
    ∀ (l : List α) (a : α), l.find? P = some a → P (g a) = true →
      (l.map (fun x => if P x then g x else x)).find? P = some (g a)
  | [], a, h, _ => by simp at h
  | x :: xs, a, h, hg => by
    by_cases hx : P x = true
    · rw [find?_cons_pos P x xs hx] at h
      have hxa : x = a := by injection h
      subst hxa
      simp only [List.map_cons]
      rw [if_pos hx]
      exact find?_cons_pos P (g x) _ hg
    · have hx' : P x = false := by simpa using hx
      rw [find?_cons_neg P x xs hx'] at h
      have ih := find?_map_if P g xs a h hg
      simp only [List.map_cons]
      rw [if_neg hx]
      rw [find?_cons_neg P x _ hx']
      exact ih

/-- `find?` over a conditional map, with a weaker predicate `Q` preserved by
both `g` and non-updates: the first `Q`-match is rewritten by `g` exactly when
it satisfied `P`. -/
theorem find?_map_if_weaker {α : Type} (P Q : α → Bool) (g : α → α)
    (hPQ : ∀ x, Q x = false → P x = false) (hgQ : ∀ x, Q (g x) = Q x) :
    ∀ (l : List α) (a : α), l.find? Q = some a →
      (l.map (fun x => if P x then g x else x)).find? Q =
        some (if P a then g a else a)
  | [], a, h => by simp at h
  | x :: xs, a, h => by
    by_cases hx : Q x = true
    · rw [find?_cons_pos Q x xs hx] at h
      have hxa : x = a := by injection h
      subst hxa
      simp only [List.map_cons]
      by_cases hp : P x = true
      · have hgx : Q (g x) = true := by rw [hgQ]; exact hx
        rw [if_pos hp]
        exact find?_cons_pos Q (g x) _ hgx
      · rw [if_neg hp]
        exact find?_cons_pos Q x _ hx
    · have hqx : Q x = false := by simpa using hx
      have hpx : P x = false := hPQ x hqx
      rw [find?_cons_neg Q x xs hqx] at h
      have ih := find?_map_if_weaker P Q g hPQ hgQ xs a h
      simp only [List.map_cons]
      rw [if_neg (by simp [hpx] : ¬ P x = true)]
      rw [find?_cons_neg Q x _ hqx]
      exact ih

theorem getJob_updateJob_self (st : Store) (id : String) (f : Job → Job) (j : Job)
    (h : st.getJob id = some j) (hid : (f j).id = j.id) :
    (st.updateJob id f).getJob id = some (f j) := by
  have hfind : st.jobs.find? (fun k => k.id == id) = some j := h
  have hj : ((fun k => k.id == id) (f j)) = true := by
    have hsat := find?_sat (fun k => k.id == id) j hfind
    simpa [hid] using hsat
  exact find?_map_if _ f st.jobs j hfind hj

theorem getProject_updateLiveProject_self (st : Store) (id : String)
    (g : Project → Project) (p : Project) (h : st.getProject id = some p)
    (hid : (g p).id = p.id) (hdel : (g p).deletedAt = none) :
    (st.updateLiveProject id g).getProject id = some (g p) := by
  have hfind : st.projects.find? (fun q => q.id == id && q.deletedAt == none) = some p := h
  have hp : ((fun q => q.id == id && q.deletedAt == none) (g p)) = true := by
    have hsat := find?_sat (fun q => q.id == id && q.deletedAt == none) p hfind
    simp only [Bool.and_eq_true, beq_iff_eq] at hsat
    simp [hid, hdel, hsat.1]
  exact find?_map_if _ g st.projects p hfind hp

/-- Raw (id-only) project lookup, including soft-deleted rows. -/
def Store.projectRecord (st : Store) (id : String) : Option Project :=
  st.projects.find? (fun p => p.id == id)

@[simp] theorem projectRecord_updateJob (st : Store) (id pid : String) (f : Job → Job) :
    (st.updateJob id f).projectRecord pid = st.projectRecord pid := rfl

theorem projectRecord_updateLiveProject (st : Store) (id : String)
    (g : Project → Project) (p : Project) (h : st.projectRecord id = some p)
    (hid : ∀ q, (g q).id = q.id) :
    (st.updateLiveProject id g).projectRecord id =
      some (if p.id == id && p.deletedAt == none then g p else p) := by
  refine find?_map_if_weaker _ _ g ?_ ?_ st.projects p h
  · intro x hx
    simp only [Bool.and_eq_false_iff]
    exact Or.inl hx
  · intro x
    simp [hid]

/-- The first id-match being live, it is also the first live match. -/
theorem find?_live_of_find?_id (id : String) :
    ∀ (l : List Project) (p : Project),
      l.find? (fun q => q.id == id) = some p → p.deletedAt = none →
      l.find? (fun q => q.id == id && q.deletedAt == none) = some p
  | [], p, h, _ => by simp at h
  | x :: xs, p, h, hlive => by
    by_cases hx : (x.id == id) = true
    · rw [find?_cons_pos (fun q => q.id == id) x xs hx] at h
      have hxp : x = p := by injection h
      subst hxp
      have hall : ((fun q => q.id == id && q.deletedAt == none) x) = true := by
        simp [hx, hlive]
      exact find?_cons_pos (fun q => q.id == id && q.deletedAt == none) x xs hall
    · have hx' : (x.id == id) = false := by simpa using hx
      rw [find?_cons_neg (fun q => q.id == id) x xs hx'] at h
      have hx2 : ((fun q => q.id == id && q.deletedAt == none) x) = false := by
        simp [hx']
      rw [find?_cons_neg (fun q => q.id == id && q.deletedAt == none) x xs hx2]
      exact find?_live_of_find?_id id xs p h hlive

theorem getProject_of_projectRecord (st : Store) (id : String) (p : Project)
    (h : st.projectRecord id = some p) (hlive : p.deletedAt = none) :
    st.getProject id = some p :=
  find?_live_of_find?_id id st.projects p h hlive

/-- Conditional map commutes with `find?` when updates preserve the
predicate. -/
theorem find?_map_if_id {α : Type} (P : α → Bool) (g : α → α) (hg : ∀ x, P (g x) = P x) :
    ∀ l : List α,
      (l.map (fun x => if P x then g x else x)).find? P = (l.find? P).map g
  | [] => by simp
  | x :: xs => by
    by_cases hx : P x = true
    · simp only [List.map_cons]
      rw [if_pos hx, find?_cons_pos P x xs hx,
        find?_cons_pos P (g x) _ (by rw [hg]; exact hx)]
      rfl
    · have hx' : P x = false := by simpa using hx
      simp only [List.map_cons]
      rw [if_neg hx, find?_cons_neg P x xs hx', find?_cons_neg P x _ hx']
      exact find?_map_if_id P g hg xs

/-- Conditional map commutes with `find?` for a weaker search predicate. -/
theorem find?_map_if_weaker_map {α : Type} (P Q : α → Bool) (g : α → α)
    (hPQ : ∀ x, Q x = false → P x = false) (hgQ : ∀ x, Q (g x) = Q x) :
    ∀ l : List α,
      (l.map (fun x => if P x then g x else x)).find? Q =
        (l.find? Q).map (fun a => if P a then g a else a)
  | [] => by simp
  | x :: xs => by
    by_cases hx : Q x = true
    · simp only [List.map_cons]
      rw [find?_cons_pos Q x xs hx]
      by_cases hp : P x = true
      · rw [if_pos hp, find?_cons_pos Q (g x) _ (by rw [hgQ]; exact hx)]
        simp [hp]
      · rw [if_neg hp, find?_cons_pos Q x _ hx]
        simp [hp]
    · have hqx : Q x = false := by simpa using hx
      have hpx : P x = false := hPQ x hqx
      simp only [List.map_cons]
      rw [if_neg (by simp [hpx] : ¬ P x = true), find?_cons_neg Q x xs hqx,
        find?_cons_neg Q x _ hqx]
      exact find?_map_if_weaker_map P Q g hPQ hgQ xs

/-! Per-operation lookup lemmas. -/

@[simp] theorem getProject_setJobRunning (st : Store) (id step : String) (now : Int) (pid : String) :
    (st.setJobRunning id step now).getProject pid = st.getProject pid := rfl

@[simp] theorem getProject_setJobStep (st : Store) (id step pid : String) :
    (st.setJobStep id step).getProject pid = st.getProject pid := rfl

@[simp] theorem getProject_appendJobLog (st : Store) (id line pid : String) :
    (st.appendJobLog id line).getProject pid = st.getProject pid := rfl

@[simp] theorem getProject_setJobFailed (st : Store) (id msg : String) (now : Int) (pid : String) :
    (st.setJobFailed id msg now).getProject pid = st.getProject pid := rfl

@[simp] theorem getProject_setJobSucceeded (st : Store) (id : String) (now : Int) (pid : String) :
    (st.setJobSucceeded id now).getProject pid = st.getProject pid := rfl

@[simp] theorem projectRecord_setJobRunning (st : Store) (id step : String) (now : Int) (pid : String) :
    (st.setJobRunning id step now).projectRecord pid = st.projectRecord pid := rfl

@[simp] theorem projectRecord_setJobStep (st : Store) (id step pid : String) :
    (st.setJobStep id step).projectRecord pid = st.projectRecord pid := rfl

@[simp] theorem projectRecord_appendJobLog (st : Store) (id line pid : String) :
    (st.appendJobLog id line).projectRecord pid = st.projectRecord pid := rfl

@[simp] theorem projectRecord_setJobFailed (st : Store) (id msg : String) (now : Int) (pid : String) :
    (st.setJobFailed id msg now).projectRecord pid = st.projectRecord pid := rfl

@[simp] theorem projectRecord_setJobSucceeded (st : Store) (id : String) (now : Int) (pid : String) :
    (st.setJobSucceeded id now).projectRecord pid = st.projectRecord pid := rfl

@[simp] theorem getJob_setProjectStatus (st : Store) (pid status : String) (now : Int) (id : String) :
    (st.setProjectStatus pid status now).getJob id = st.getJob id := rfl

@[simp] theorem getJob_markProjectDeleted (st : Store) (pid : String) (now : Int) (id : String) :
    (st.markProjectDeleted pid now).getJob id = st.getJob id := rfl

@[simp] theorem getJob_setJobRunning (st : Store) (id step : String) (now : Int) :
    (st.setJobRunning id step now).getJob id =
      (st.getJob id).map (fun j => { j with status := "running", currentStep := step,
                                            startedAt := some now }) := by
  have h := find?_map_if_id (fun j => j.id == id)
    (fun j => { j with status := "running", currentStep := step, startedAt := some now })
    (fun _ => rfl) st.jobs
  exact h

@[simp] theorem getJob_setJobStep (st : Store) (id step : String) :
    (st.setJobStep id step).getJob id =
      (st.getJob id).map (fun j => { j with currentStep := step }) := by
  have h := find?_map_if_id (fun j => j.id == id)
    (fun j => { j with currentStep := step }) (fun _ => rfl) st.jobs
  exact h

@[simp] theorem getJob_appendJobLog (st : Store) (id line : String) :
    (st.appendJobLog id line).getJob id =
      (st.getJob id).map (fun j => { j with log := j.log ++ line }) := by
  have h := find?_map_if_id (fun j => j.id == id)
    (fun j => { j with log := j.log ++ line }) (fun _ => rfl) st.jobs
  exact h

@[simp] theorem getJob_setJobFailed (st : Store) (id msg : String) (now : Int) :
    (st.setJobFailed id msg now).getJob id =
      (st.getJob id).map (fun j => { j with status := "failed", error := msg,
                                            finishedAt := some now }) := by
  have h := find?_map_if_id (fun j => j.id == id)
    (fun j => { j with status := "failed", error := msg, finishedAt := some now })
    (fun _ => rfl) st.jobs
  exact h

@[simp] theorem getJob_setJobSucceeded (st : Store) (id : String) (now : Int) :
    (st.setJobSucceeded id now).getJob id =
      (st.getJob id).map (fun j => { j with status := "succeeded", finishedAt := some now }) := by
  have h := find?_map_if_id (fun j => j.id == id)
    (fun j => { j with status := "succeeded", finishedAt := some now })
    (fun _ => rfl) st.jobs
  exact h

@[simp] theorem getProject_setProjectStatus (st : Store) (id status : String) (now : Int) :
    (st.setProjectStatus id status now).getProject id =
      (st.getProject id).map (fun p => { p with lastStatus := status,
                                                lastStatusAt := some now }) := by
  have h := find?_map_if_id (fun p => p.id == id && p.deletedAt == none)
    (fun p => { p with lastStatus := status, lastStatusAt := some now })
    (fun _ => rfl) st.projects
  exact h

@[simp] theorem projectRecord_setProjectStatus (st : Store) (id status : String) (now : Int) :
    (st.setProjectStatus id status now).projectRecord id =
      (st.projectRecord id).map (fun p =>
        if p.id == id && p.deletedAt == none then
          { p with lastStatus := status, lastStatusAt := some now }
        else p) := by
  have h := find?_map_if_weaker_map (fun p => p.id == id && p.deletedAt == none)
    (fun p => p.id == id)
    (fun p => { p with lastStatus := status, lastStatusAt := some now })
    (fun x hx => by simp only [Bool.and_eq_false_iff]; exact Or.inl hx)
    (fun _ => rfl) st.projects
  exact h

@[simp] theorem projectRecord_markProjectDeleted (st : Store) (id : String) (now : Int) :
    (st.markProjectDeleted id now).projectRecord id =
      (st.projectRecord id).map (fun p =>
        if p.id == id && p.deletedAt == none then
          { p with deletedAt := some now, lastStatus := "deleted", lastStatusAt := some now }
        else p) := by
  have h := find?_map_if_weaker_map (fun p => p.id == id && p.deletedAt == none)
    (fun p => p.id == id)
    (fun p => { p with deletedAt := some now, lastStatus := "deleted", lastStatusAt := some now })
    (fun x hx => by simp only [Bool.and_eq_false_iff]; exact Or.inl hx)
    (fun _ => rfl) st.projects
  exact h

/-! ## Concrete fixtures used by witnesses and counterexamples -/

def okUnit : Except String Unit := .ok ()

/-- An environment in which every external call succeeds. -/
def envFix : WorkerEnv :=
  { now := 100
    nowStr := "2026-01-01T00:00:00Z"
    repoExists := false
    cloneResult := okUnit
    writeDockerfileResult := okUnit
    writeComposeResult := okUnit
    newDockerResult := okUnit
    removeContainersResult := okUnit
    buildResult := okUnit
    runResult := okUnit
    composeUpResult := okUnit
    composeStopResult := okUnit
    composePauseResult := okUnit
    composeUnpauseResult := okUnit
    dockerStartResult := .ok 1
    dockerStopResult := .ok 1
    dockerPauseResult := .ok 1
    dockerUnpauseResult := .ok 1
    removeNetworksResult := okUnit
    removeImageResult := okUnit
    removeRepoDirResult := okUnit
    overridePath := "/tmp/last-deploy-compose-1.yml"
    overrideWriteResult := okUnit }

/-- A delete-time environment where the containers and networks are already
gone: both removals report errors. -/
def envCleanupFails : WorkerEnv :=
  { envFix with
    removeContainersResult := .error "no such container"
    removeNetworksResult := .error "network not found"
    removeImageResult := .error "image not found"
    removeRepoDirResult := .error "permission denied" }

def cfgFix : Config := ⟨"/data", ""⟩

def projFix : Project :=
  { id := "p1"
    name := "demo"
    gitURL := "https://example.com/demo.git"
    gitRef := ""
    repoSubdir := ""
    deployType := "dockerfile"
    composeFile := ""
    composeService := ""
    dockerfilePath := "Dockerfile"
    dockerfileContent := ""
    composeContent := ""
    hostPort := 8080
    containerPort := 80
    lastStatus := "unknown"
    lastStatusAt := none
    deletedAt := none }

def jobDeleteFix : Job :=
  { id := "jd"
    projectID := "p1"
    jobType := "delete"
    status := "queued"
    currentStep := ""
    log := ""
    error := ""
    requestedAt := 1
    startedAt := none
    finishedAt := none }

def jobRunningFix : Job :=
  { jobDeleteFix with id := "jr", jobType := "deploy", status := "running" }

def stDeleteFix : Store := ⟨[projFix], [jobDeleteFix]⟩

def stNonQueuedFix : Store := ⟨[projFix], [jobRunningFix]⟩

/-! ## Claim C3 -/

/-- **C3** — For every job identifier delivered to the Worker whose stored job
status is not `queued`, processing the identifier is a no-op: the job is not
executed, no job or project record field is mutated (the store is returned
unchanged), and no external effect is performed, so a job already `running`,
`succeeded` or `failed` is never re-run or re-marked. -/
theorem runJob_nonqueued_noop (env : WorkerEnv) (cwd : String) (cfg : Config) (st : Store)
    (jobID : String) (job : Job) (hj : st.getJob jobID = some job)
    (hs : job.status ≠ "queued") :
    runJob env cwd cfg st jobID = (st, []) := by
  unfold runJob
  rw [hj]
  simp only []
  rw [if_pos hs]

/-- Witness for C3 at a concrete store holding a `running` job. -/
theorem runJob_nonqueued_noop_witness :
    stNonQueuedFix.getJob "jr" = some jobRunningFix ∧
    jobRunningFix.status ≠ "queued" ∧
    runJob envFix "/cwd" cfgFix stNonQueuedFix "jr" = (stNonQueuedFix, []) :=
  ⟨rfl, by decide,
    runJob_nonqueued_noop envFix "/cwd" cfgFix stNonQueuedFix "jr" jobRunningFix rfl
      (by decide)⟩

/-! ## Claim C5 -/

/-- **C5** — The delete operation removes the project's containers, networks
(matched by the `last-deploy-<id>` name prefix) and image, and removes the
local working copy, with every individual removal error swallowed (the env's
removal outcomes are unconstrained below); it marks the project soft-deleted
with status `deleted`, the job succeeds, and the operation does not branch on
the deploy type. -/
theorem delete_reaches_deleted
    (env : WorkerEnv) (cwd : String) (cfg : Config) (st : Store) (jobID : String)
    (job : Job) (proj : Project)
    (hj : st.getJob jobID = some job) (hq : job.status = "queued")
    (ht : job.jobType = "delete")
    (hpr : st.projectRecord job.projectID = some proj) (hlive : proj.deletedAt = none)
    (hDocker : env.newDockerResult = .ok ()) :
    (runJob env cwd cfg st jobID).2 =
      [Effect.removeContainers proj.id,
       Effect.removeNetworksByName ("last-deploy-" ++ proj.id),
       Effect.removeImage ("last-deploy:" ++ proj.id),
       Effect.removeDir (RepoDir cfg proj.id)] ∧
    ((runJob env cwd cfg st jobID).1.projectRecord job.projectID).map
        (fun p => (p.lastStatus, p.deletedAt)) = some ("deleted", some env.now) ∧
    ((runJob env cwd cfg st jobID).1.getJob jobID).map (fun j => j.status) =
      some "succeeded" ∧
    (∀ t st', deleteOp env cfg { proj with deployType := t } jobID st' =
      deleteOp env cfg proj jobID st') := by
  have hp : st.getProject job.projectID = some proj :=
    getProject_of_projectRecord st job.projectID proj hpr hlive
  have hfindpr : st.projects.find? (fun q => q.id == job.projectID) = some proj := hpr
  have hprid : (proj.id == job.projectID) = true := by
    have hsat := find?_sat (fun q => q.id == job.projectID) proj hfindpr
    simpa using hsat
  have hid2 : proj.id = job.projectID := by simpa [beq_iff_eq] using hprid
  unfold runJob
  rw [hj]
  simp only []
  rw [if_neg (by simp [hq])]
  simp only [getProject_setJobRunning, getProject_appendJobLog]
  rw [hp, ht]
  simp only []
  unfold deleteOp
  rw [hDocker]
  simp only []
  refine ⟨rfl, ?_, ?_, ?_⟩
  · simp [hpr, hprid, hlive, hid2]
  · simp [hj, hq]
  · intro t st'
    trivial

/-- Witness for C5: deleting a project whose containers and networks are
already gone still reaches the `deleted` terminal state. -/
theorem delete_reaches_deleted_witness :
    stDeleteFix.getJob "jd" = some jobDeleteFix ∧
    jobDeleteFix.status = "queued" ∧
    jobDeleteFix.jobType = "delete" ∧
    stDeleteFix.projectRecord "p1" = some projFix ∧
    projFix.deletedAt = none ∧
    envCleanupFails.newDockerResult = .ok () ∧
    ((runJob envCleanupFails "/cwd" cfgFix stDeleteFix "jd").2 =
      [Effect.removeContainers "p1",
       Effect.removeNetworksByName ("last-deploy-" ++ "p1"),
       Effect.removeImage ("last-deploy:" ++ "p1"),
       Effect.removeDir (RepoDir cfgFix "p1")] ∧
    ((runJob envCleanupFails "/cwd" cfgFix stDeleteFix "jd").1.projectRecord "p1").map
        (fun p => (p.lastStatus, p.deletedAt)) = some ("deleted", some (100 : Int)) ∧
    ((runJob envCleanupFails "/cwd" cfgFix stDeleteFix "jd").1.getJob "jd").map
        (fun j => j.status) = some "succeeded" ∧
    (∀ t st', deleteOp envCleanupFails cfgFix { projFix with deployType := t } "jd" st' =
      deleteOp envCleanupFails cfgFix projFix "jd" st')) :=
  ⟨rfl, rfl, rfl, rfl, rfl, rfl,
    delete_reaches_deleted envCleanupFails "/cwd" cfgFix stDeleteFix "jd" jobDeleteFix
      projFix rfl rfl rfl rfl rfl rfl⟩

/-! ## Claim C9 -/

/-- **C9** — For every non-empty ref, checkout resolution proceeds in this
exact order: (1) a full 40-character hex ref is treated directly as a commit
hash; (2) otherwise the literal reference name, then the `origin/<ref>`
remote-tracking name (`refs/remotes/origin/<ref>`), then the tag name, then
the branch name are tried; (3) otherwise revision-expression resolution is
tried against `<ref>`, `origin/<ref>`, `refs/remotes/origin/<ref>`,
`refs/tags/<ref>`, `refs/heads/<ref>` in that order, taking the first that
resolves; an empty ref performs no checkout; if no candidate resolves, the
result is an error naming the unresolved ref. -/
theorem checkoutRef_resolution_order (repo : GitRepo) (ref : String) :
    (ref = "" → checkoutRef repo ref = .ok none) ∧
    (ref ≠ "" → isHex40 ref = true → checkoutRef repo ref = .ok (some ref)) ∧
    (ref ≠ "" → isHex40 ref = false →
      ((∀ h, repo.reference ref = some h → checkoutRef repo ref = .ok (some h)) ∧
       (repo.reference ref = none →
         ∀ h, repo.reference ("refs/remotes/origin/" ++ ref) = some h →
           checkoutRef repo ref = .ok (some h)) ∧
       (repo.reference ref = none →
         repo.reference ("refs/remotes/origin/" ++ ref) = none →
         ∀ h, repo.reference ("refs/tags/" ++ ref) = some h →
           checkoutRef repo ref = .ok (some h)) ∧
       (repo.reference ref = none →
         repo.reference ("refs/remotes/origin/" ++ ref) = none →
         repo.reference ("refs/tags/" ++ ref) = none →
         ∀ h, repo.reference ("refs/heads/" ++ ref) = some h →
           checkoutRef repo ref = .ok (some h)) ∧
       ((∀ c, c ∈ [ref, "refs/remotes/origin/" ++ ref, "refs/tags/" ++ ref,
                   "refs/heads/" ++ ref] → repo.reference c = none) →
         ((∀ h, repo.resolveRevision ref = some h → checkoutRef repo ref = .ok (some h)) ∧
          (repo.resolveRevision ref = none →
            ∀ h, repo.resolveRevision ("origin/" ++ ref) = some h →
              checkoutRef repo ref = .ok (some h)) ∧
          (repo.resolveRevision ref = none →
            repo.resolveRevision ("origin/" ++ ref) = none →
            ∀ h, repo.resolveRevision ("refs/remotes/origin/" ++ ref) = some h →
              checkoutRef repo ref = .ok (some h)) ∧
          (repo.resolveRevision ref = none →
            repo.resolveRevision ("origin/" ++ ref) = none →
            repo.resolveRevision ("refs/remotes/origin/" ++ ref) = none →
            ∀ h, repo.resolveRevision ("refs/tags/" ++ ref) = some h →
              checkoutRef repo ref = .ok (some h)) ∧
          (repo.resolveRevision ref = none →
            repo.resolveRevision ("origin/" ++ ref) = none →
            repo.resolveRevision ("refs/remotes/origin/" ++ ref) = none →
            repo.resolveRevision ("refs/tags/" ++ ref) = none →
            ∀ h, repo.resolveRevision ("refs/heads/" ++ ref) = some h →
              checkoutRef repo ref = .ok (some h)) ∧
          ((∀ c, c ∈ [ref, "origin/" ++ ref, "refs/remotes/origin/" ++ ref,
                      "refs/tags/" ++ ref, "refs/heads/" ++ ref] →
              repo.resolveRevision c = none) →
            checkoutRef repo ref = .error ("unknown git_ref: \"" ++ ref ++ "\"")))))) := by
  refine ⟨?_, ?_, ?_⟩
  · intro h
    simp [checkoutRef, h]
  · intro hne hhex
    simp [checkoutRef, hne, hhex]
  · intro hne hhex
    refine ⟨?_, ?_, ?_, ?_, ?_⟩
    · intro h hh
      simp [checkoutRef, hne, hhex, hh]
    · intro h1 h hh
      simp [checkoutRef, hne, hhex, h1, hh]
    · intro h1 h2 h hh
      simp [checkoutRef, hne, hhex, h1, h2, hh]
    · intro h1 h2 h3 h hh
      simp [checkoutRef, hne, hhex, h1, h2, h3, hh]
    · intro hall
      have h1 := hall ref (by simp)
      have h2 := hall ("refs/remotes/origin/" ++ ref) (by simp)
      have h3 := hall ("refs/tags/" ++ ref) (by simp)
      have h4 := hall ("refs/heads/" ++ ref) (by simp)
      refine ⟨?_, ?_, ?_, ?_, ?_, ?_⟩
      · intro h hh
        simp [checkoutRef, hne, hhex, h1, h2, h3, h4, hh]
      · intro r1 h hh
        simp [checkoutRef, hne, hhex, h1, h2, h3, h4, r1, hh]
      · intro r1 r2 h hh
        simp [checkoutRef, hne, hhex, h1, h2, h3, h4, r1, r2, hh]
      · intro r1 r2 r3 h hh
        simp [checkoutRef, hne, hhex, h1, h2, h3, h4, r1, r2, r3, hh]
      · intro r1 r2 r3 r4 h hh
        simp [checkoutRef, hne, hhex, h1, h2, h3, h4, r1, r2, r3, r4, hh]
      · intro hallr
        have r1 := hallr ref (by simp)
        have r2 := hallr ("origin/" ++ ref) (by simp)
        have r3 := hallr ("refs/remotes/origin/" ++ ref) (by simp)
        have r4 := hallr ("refs/tags/" ++ ref) (by simp)
        have r5 := hallr ("refs/heads/" ++ ref) (by simp)
        simp [checkoutRef, hne, hhex, h1, h2, h3, h4, r1, r2, r3, r4, r5]


/-- A repository in which only the tag reference `refs/tags/v1` exists. -/
def repoTagFix : GitRepo :=
  ⟨fun n => if n = "refs/tags/v1" then some "h1" else none, fun _ => none⟩

/-- Witness for C9: `v1` resolves through the tag-name candidate after the
literal and remote-tracking candidates miss. -/
theorem checkoutRef_resolution_order_witness :
    ("v1" : String) ≠ "" ∧ isHex40 "v1" = false ∧
    repoTagFix.reference "v1" = none ∧
    repoTagFix.reference ("refs/remotes/origin/" ++ "v1") = none ∧
    repoTagFix.reference ("refs/tags/" ++ "v1") = some "h1" ∧
    checkoutRef repoTagFix "v1" = .ok (some "h1") :=
  ⟨by decide, by decide, rfl, rfl, rfl,
    ((checkoutRef_resolution_order repoTagFix "v1").2.2 (by decide)
      (by decide)).2.2.1 rfl rfl "h1" rfl⟩

/-! ## Claim C6 -/

theorem foldl_enqueue (l : List Job) :
    ∀ q : List String, l.foldl (fun q j => Enqueue q j.id) q = q ++ l.map (fun j => j.id) := by
  induction l with
  | nil => intro q; simp
  | cons x xs ih =>
    intro q
    simp only [List.foldl_cons, List.map_cons]
    rw [ih (Enqueue q x.id)]
    simp [Enqueue]

/-- **C6** — Recovery at startup enqueues exactly the persisted jobs whose
status is `queued` — every such job and no job of any other status — appended
to the queue in ascending `requested_at` order. -/
theorem enqueuePersisted_exact (st : Store) (q : List String) :
    EnqueuePersisted st q = q ++ (st.listJobsByStatus "queued").map (fun j => j.id) ∧
    (st.listJobsByStatus "queued").Perm
      (st.jobs.filter (fun j => j.status == "queued")) ∧
    List.Pairwise jobReqLE (st.listJobsByStatus "queued") ∧
    (∀ j, j ∈ st.listJobsByStatus "queued" ↔ (j ∈ st.jobs ∧ j.status = "queued")) := by
  refine ⟨foldl_enqueue _ q, ?_, ?_, ?_⟩
  · exact List.perm_insertionSort jobReqLE _
  · exact List.sorted_insertionSort jobReqLE _
  · intro j
    have hperm := List.perm_insertionSort jobReqLE
      (st.jobs.filter (fun j => j.status == "queued"))
    rw [Store.listJobsByStatus, hperm.mem_iff, List.mem_filter]
    simp

/-! ## Claim C7 -/

/-- The per-line `EXPOSE` rule described by the (amended) specification:
uppercase and trim the line, match a leading `EXPOSE `, take the token before
any `/` or space character (only the ASCII space splits the token — an
interior tab is not a separator), accumulate every digit character of the
token (non-digits are skipped, not terminating), and accept a value in
`[1, 65535]`. -/
def exposeLinePort (line : List Char) : Option Int :=
  let upper := toUpperChars (trimSpaceChars line)
  if isPreOf "EXPOSE ".data upper then
    let tok := (splitOnChar ' ' ((splitOnChar '/' (trimSpaceChars (upper.drop 7))).headD [])).headD []
    let v := digitsVal64 tok
    if 0 < v ∧ v ≤ 65535 then some v else none
  else none

/-- First-match-wins reading of the Dockerfile port scan: the first line whose
`EXPOSE` token yields a port in range wins; otherwise 0. -/
def dockerfilePortSpec (content : String) : Int :=
  ((splitOnChar '\n' content.data).findSome? exposeLinePort).getD 0

/-- The digit rule as literally claimed: parse only the token's leading run
of digits. -/
def digitsValLeading (l : List Char) : Int :=
  digitsVal64 (l.takeWhile (fun c => decide ('0' ≤ c) && decide (c ≤ '9')))

/-- The Dockerfile port parser exactly as the claim describes it: the token
ends at the first `/` or whitespace character (not only at a space), and only
the token's leading run of digits is parsed. -/
def dockerfilePortClaimed (content : String) : Int :=
  loop (splitOnChar '\n' content.data)
where
  loop : List (List Char) → Int
    | [] => 0
    | line :: rest =>
      let upper := toUpperChars (trimSpaceChars line)
      if isPreOf "EXPOSE ".data upper then
        let tok := (trimSpaceChars (upper.drop 7)).takeWhile
          (fun c => !(decide (c = '/') || isSpaceChar c))
        let v := digitsValLeading tok
        if 0 < v ∧ v ≤ 65535 then v else loop rest
      else loop rest

set_option maxRecDepth 4000 in
/-- Counterexample to C7 as stated, on both diverging token rules.  Digits:
on `EXPOSE 80a9` the code accumulates all digit characters of the token
(`809`) where parsing the token's leading digits only gives `80`.
Whitespace: the code cuts the token at a space character only (`strings.Split
(portStr, " ")`), not at arbitrary whitespace, so on the tab-separated
`EXPOSE 1\t2` it yields `12` where the claimed before-any-whitespace rule
gives `1`, and on `EXPOSE 8080\t9090` it yields `0` (the merged digits
`80809090` exceed 65535) where the claimed rule gives `8080`. -/
theorem parseDockerfilePort_digits_cex :
    parseDockerfilePort "EXPOSE 80a9" = 809 ∧
    dockerfilePortClaimed "EXPOSE 80a9" = 80 ∧
    parseDockerfilePort "EXPOSE 1\t2" = 12 ∧
    dockerfilePortClaimed "EXPOSE 1\t2" = 1 ∧
    parseDockerfilePort "EXPOSE 8080\t9090" = 0 ∧
    dockerfilePortClaimed "EXPOSE 8080\t9090" = 8080 :=
  ⟨by decide, by decide, by decide, by decide, by decide, by decide⟩

theorem parseDockerfilePort_loop_spec (l : List (List Char)) :
    parseDockerfilePort.loop l = (l.findSome? exposeLinePort).getD 0 := by
  induction l with
  | nil => rfl
  | cons line rest ih =>
    simp only [parseDockerfilePort.loop, List.findSome?_cons, exposeLinePort]
    by_cases hpre : isPreOf "EXPOSE ".data (toUpperChars (trimSpaceChars line)) = true
    · rw [if_pos hpre, if_pos hpre]
      by_cases hv : 0 < digitsVal64 ((splitOnChar ' ' ((splitOnChar '/' (trimSpaceChars ((toUpperChars (trimSpaceChars line)).drop 7))).headD [])).headD []) ∧ digitsVal64 ((splitOnChar ' ' ((splitOnChar '/' (trimSpaceChars ((toUpperChars (trimSpaceChars line)).drop 7))).headD [])).headD []) ≤ 65535
      · rw [if_pos hv, if_pos hv]
        rfl
      · rw [if_neg hv, if_neg hv]
        simpa using ih
    · rw [if_neg hpre, if_neg hpre]
      simpa using ih

/-- **C7 (amended)** — For every Dockerfile text the parser scans lines in
order, uppercases and trims each, matches a leading `EXPOSE `, takes the
token before any `/` or space character (only the ASCII space splits the
token; an interior tab is not a separator), accumulates every digit
character of that token (non-digit characters are skipped rather than
terminating the parse), and returns the first resulting value in
`[1, 65535]`; texts with no valid `EXPOSE` line return 0. -/
theorem parseDockerfilePort_eq_spec (content : String) :
    parseDockerfilePort content = dockerfilePortSpec content :=
  parseDockerfilePort_loop_spec _


/-! ## Claim C10: split/trim lemma kit -/

theorem splitOnChar_ne_nil (sep : Char) : (l : List Char) → splitOnChar sep l ≠ []
  | [] => by simp [splitOnChar]
  | c :: cs => by
    simp only [splitOnChar]
    by_cases h : c = sep
    · simp [h]
    · cases hs : splitOnChar sep cs with
      | nil => simp [h]
      | cons g gs => simp [h]

theorem dropWhileEnd_eq_nil_iff (p : Char → Bool) : (l : List Char) →
    (dropWhileEnd p l = [] ↔ ∀ c ∈ l, p c = true)
  | [] => by simp [dropWhileEnd]
  | c :: cs => by
    simp only [dropWhileEnd]
    by_cases hc : ((dropWhileEnd p cs).isEmpty && p c) = true
    · rw [if_pos hc]
      simp only [Bool.and_eq_true, List.isEmpty_iff] at hc
      constructor
      · intro _ x hx
        rcases List.mem_cons.mp hx with h | h
        · rw [h]; exact hc.2
        · exact (dropWhileEnd_eq_nil_iff p cs).mp hc.1 x h
      · intro _
        rfl
    · rw [if_neg hc]
      simp only [Bool.and_eq_true, List.isEmpty_iff] at hc
      constructor
      · intro h
        cases h
      · intro hall
        exact absurd ⟨(dropWhileEnd_eq_nil_iff p cs).mpr
          (fun x hx => hall x (List.mem_cons_of_mem c hx)),
          hall c (List.mem_cons_self c cs)⟩ hc

theorem mem_dropWhileEnd (p : Char → Bool) (c : Char) (hc : p c = false) :
    (l : List Char) → c ∈ l → c ∈ dropWhileEnd p l
  | x :: xs, hmem => by
    simp only [dropWhileEnd]
    rcases List.mem_cons.mp hmem with h | h
    · subst h
      have : ((dropWhileEnd p xs).isEmpty && p c) = false := by simp [hc]
      rw [if_neg (by simp [this, hc])]
      exact List.mem_cons_self c _
    · have hin := mem_dropWhileEnd p c hc xs h
      have hne : dropWhileEnd p xs ≠ [] := by
        intro hnil
        rw [hnil] at hin
        cases hin
      rw [if_neg (by simp [List.isEmpty_iff, hne])]
      exact List.mem_cons_of_mem x hin

theorem mem_dropWhile (p : Char → Bool) (c : Char) (hc : p c = false) :
    (l : List Char) → c ∈ l → c ∈ l.dropWhile p
  | x :: xs, hmem => by
    by_cases hx : p x = true
    · rw [List.dropWhile_cons_of_pos hx]
      rcases List.mem_cons.mp hmem with h | h
      · rw [h] at hc
        rw [hx] at hc
        cases hc
      · exact mem_dropWhile p c hc xs h
    · rw [List.dropWhile_cons_of_neg hx]
      exact hmem

theorem trimSpaceChars_ne_nil_of_mem (c : Char) (hc : isSpaceChar c = false)
    (l : List Char) (hmem : c ∈ l) : trimSpaceChars l ≠ [] := by
  intro hnil
  have h1 : c ∈ dropWhileEnd isSpaceChar l := mem_dropWhileEnd _ c hc l hmem
  have h2 : c ∈ trimSpaceChars l := mem_dropWhile _ c hc _ h1
  rw [hnil] at h2
  cases h2

theorem splitOnChar_cons_sep (sep : Char) (cs : List Char) :
    splitOnChar sep (sep :: cs) = [] :: splitOnChar sep cs := by
  simp [splitOnChar]

theorem splitOnChar_cons_ne (sep c : Char) (h : c ≠ sep) (cs : List Char) :
    splitOnChar sep (c :: cs) =
      (c :: (splitOnChar sep cs).headD []) :: (splitOnChar sep cs).tail := by
  simp only [splitOnChar]
  rw [if_neg h]
  cases hs : splitOnChar sep cs with
  | nil => exact absurd hs (splitOnChar_ne_nil sep cs)
  | cons g gs => simp

theorem splitOnChar_of_not_mem (sep : Char) : (l : List Char) → sep ∉ l →
    splitOnChar sep l = [l]
  | [], _ => rfl
  | c :: cs, h => by
    have hc : c ≠ sep := fun he => h (he ▸ List.mem_cons_self c cs)
    have hcs : sep ∉ cs := fun hm => h (List.mem_cons_of_mem c hm)
    rw [splitOnChar_cons_ne sep c hc cs, splitOnChar_of_not_mem sep cs hcs]
    rfl

theorem headD_cons_tail (sep : Char) (l : List Char) :
    splitOnChar sep l = (splitOnChar sep l).headD [] :: (splitOnChar sep l).tail := by
  cases hs : splitOnChar sep l with
  | nil => exact absurd hs (splitOnChar_ne_nil sep l)
  | cons g gs => rfl

theorem splitOnChar_dropWhile (sep : Char) (p : Char → Bool) (hps : p sep = false) :
    (l : List Char) →
      splitOnChar sep (l.dropWhile p) =
        ((splitOnChar sep l).headD []).dropWhile p :: (splitOnChar sep l).tail
  | [] => by simp [splitOnChar]
  | c :: cs => by
    by_cases hc : p c = true
    · have hcs : c ≠ sep := by
        intro he
        rw [he, hps] at hc
        cases hc
      rw [List.dropWhile_cons_of_pos hc, splitOnChar_dropWhile sep p hps cs,
        splitOnChar_cons_ne sep c hcs cs]
      simp [List.dropWhile_cons_of_pos hc]
    · have hc' : ¬ p c = true := hc
      rw [List.dropWhile_cons_of_neg hc']
      by_cases he : c = sep
      · subst he
        rw [splitOnChar_cons_sep]
        simp [List.dropWhile]
      · rw [splitOnChar_cons_ne sep c he cs]
        simp [List.dropWhile_cons_of_neg hc']

theorem mem_of_mem_dropWhileEnd (p : Char → Bool) (x : Char) :
    (l : List Char) → x ∈ dropWhileEnd p l → x ∈ l
  | c :: cs, h => by
    simp only [dropWhileEnd] at h
    by_cases hc : ((dropWhileEnd p cs).isEmpty && p c) = true
    · rw [if_pos hc] at h
      cases h
    · rw [if_neg hc] at h
      rcases List.mem_cons.mp h with h | h
      · rw [h]; exact List.mem_cons_self c cs
      · exact List.mem_cons_of_mem c (mem_of_mem_dropWhileEnd p x cs h)

theorem splitOnChar_two_of_mem (sep : Char) :
    (l : List Char) → sep ∈ l → 2 ≤ (splitOnChar sep l).length
  | c :: cs, h => by
    by_cases he : c = sep
    · subst he
      rw [splitOnChar_cons_sep]
      have := splitOnChar_ne_nil c cs
      have hlen : 1 ≤ (splitOnChar c cs).length := by
        cases hs : splitOnChar c cs with
        | nil => exact absurd hs this
        | cons g gs => simp
      simpa using hlen
    · have hcs : sep ∈ cs := by
        rcases List.mem_cons.mp h with h' | h'
        · exact absurd h'.symm he
        · exact h'
      rw [splitOnChar_cons_ne sep c he cs]
      have h2 := splitOnChar_two_of_mem sep cs hcs
      have : 1 ≤ (splitOnChar sep cs).tail.length := by
        cases hs : splitOnChar sep cs with
        | nil => exact absurd hs (splitOnChar_ne_nil sep cs)
        | cons g gs =>
          rw [hs] at h2
          simpa using h2
      simpa using this

theorem getLastD_irrel {α : Type} (d d' : α) : (L : List α) → L ≠ [] →
    L.getLastD d = L.getLastD d'
  | _ :: _, _ => rfl

theorem splitOnChar_dropWhileEnd (sep : Char) (p : Char → Bool) (hps : p sep = false) :
    (l : List Char) →
      splitOnChar sep (dropWhileEnd p l) =
        (splitOnChar sep l).dropLast ++ [dropWhileEnd p ((splitOnChar sep l).getLastD [])]
  | [] => by simp [splitOnChar, dropWhileEnd]
  | c :: cs => by
    by_cases hA : ((dropWhileEnd p cs).isEmpty && p c) = true
    · have hd : dropWhileEnd p (c :: cs) = [] := by
        simp only [dropWhileEnd]
        rw [if_pos hA]
      simp only [Bool.and_eq_true, List.isEmpty_iff] at hA
      have hall : ∀ x ∈ cs, p x = true := (dropWhileEnd_eq_nil_iff p cs).mp hA.1
      have hsepcs : sep ∉ cs := by
        intro hmem
        have hx := hall sep hmem
        rw [hps] at hx
        cases hx
      have hcne : c ≠ sep := by
        intro he
        have hx := hA.2
        rw [he, hps] at hx
        cases hx
      have hsepl : sep ∉ c :: cs := by
        intro hmem
        rcases List.mem_cons.mp hmem with h | h
        · exact hcne h.symm
        · exact hsepcs h
      rw [hd, splitOnChar_of_not_mem sep (c :: cs) hsepl]
      show splitOnChar sep [] = [] ++ [dropWhileEnd p (c :: cs)]
      rw [hd]
      rfl
    · have hd : dropWhileEnd p (c :: cs) = c :: dropWhileEnd p cs := by
        simp only [dropWhileEnd]
        rw [if_neg hA]
      rw [hd]
      by_cases he : c = sep
      · subst he
        rw [splitOnChar_cons_sep, splitOnChar_dropWhileEnd c p hps cs, splitOnChar_cons_sep]
        cases hS : splitOnChar c cs with
        | nil => exact absurd hS (splitOnChar_ne_nil c cs)
        | cons g gs =>
          simp only [List.dropLast_cons₂, List.getLastD_cons, List.cons_append]
      · by_cases hm : sep ∈ cs
        · have h2 := splitOnChar_two_of_mem sep cs hm
          cases hS : splitOnChar sep cs with
          | nil => exact absurd hS (splitOnChar_ne_nil sep cs)
          | cons a S' =>
            cases S' with
            | nil =>
              rw [hS] at h2
              simp at h2
            | cons b r =>
              have hIH := splitOnChar_dropWhileEnd sep p hps cs
              rw [hS] at hIH
              rw [splitOnChar_cons_ne sep c he _, hIH,
                splitOnChar_cons_ne sep c he cs, hS]
              simp only [List.dropLast_cons₂, List.getLastD_cons, List.headD_cons,
                List.tail_cons, List.cons_append]
        · have h1 : splitOnChar sep cs = [cs] := splitOnChar_of_not_mem sep cs hm
          have hmd : sep ∉ dropWhileEnd p cs := fun hx =>
            hm (mem_of_mem_dropWhileEnd p sep cs hx)
          have h2 : splitOnChar sep (dropWhileEnd p cs) = [dropWhileEnd p cs] :=
            splitOnChar_of_not_mem sep _ hmd
          rw [splitOnChar_cons_ne sep c he _, h2, splitOnChar_cons_ne sep c he cs, h1]
          simp only [List.headD_cons, List.tail_cons, List.dropLast_single,
            List.getLastD, List.nil_append]
          rw [← hd]
          rfl

theorem dropWhile_idem (p : Char → Bool) : (l : List Char) →
    (l.dropWhile p).dropWhile p = l.dropWhile p
  | [] => rfl
  | c :: cs => by
    by_cases hc : p c = true
    · rw [List.dropWhile_cons_of_pos hc]
      exact dropWhile_idem p cs
    · rw [List.dropWhile_cons_of_neg hc, List.dropWhile_cons_of_neg hc]

theorem dropWhileEnd_idem (p : Char → Bool) : (l : List Char) →
    dropWhileEnd p (dropWhileEnd p l) = dropWhileEnd p l
  | [] => rfl
  | c :: cs => by
    by_cases hA : ((dropWhileEnd p cs).isEmpty && p c) = true
    · have hd : dropWhileEnd p (c :: cs) = [] := by
        simp only [dropWhileEnd]
        rw [if_pos hA]
      rw [hd]
      rfl
    · have hd : dropWhileEnd p (c :: cs) = c :: dropWhileEnd p cs := by
        simp only [dropWhileEnd]
        rw [if_neg hA]
      rw [hd]
      show dropWhileEnd p (c :: dropWhileEnd p cs) = c :: dropWhileEnd p cs
      simp only [dropWhileEnd]
      rw [dropWhileEnd_idem p cs]
      rw [if_neg hA]

theorem dropWhileEnd_dropWhile_comm (p : Char → Bool) : (l : List Char) →
    dropWhileEnd p (l.dropWhile p) = (dropWhileEnd p l).dropWhile p
  | [] => rfl
  | c :: cs => by
    by_cases hc : p c = true
    · rw [List.dropWhile_cons_of_pos hc]
      by_cases hE : dropWhileEnd p cs = []
      · have hd : dropWhileEnd p (c :: cs) = [] := by
          simp only [dropWhileEnd]
          rw [if_pos (by simp [List.isEmpty_iff, hE, hc])]
        rw [hd]
        rw [dropWhileEnd_dropWhile_comm p cs, hE]
      · have hd : dropWhileEnd p (c :: cs) = c :: dropWhileEnd p cs := by
          simp only [dropWhileEnd]
          rw [if_neg (by simp [List.isEmpty_iff, hE])]
        rw [hd, List.dropWhile_cons_of_pos hc]
        exact dropWhileEnd_dropWhile_comm p cs
    · rw [List.dropWhile_cons_of_neg hc]
      by_cases hE : dropWhileEnd p cs = []
      · have hd : dropWhileEnd p (c :: cs) = c :: dropWhileEnd p cs := by
          simp only [dropWhileEnd]
          rw [if_neg (by simp [hc])]
        rw [hd, List.dropWhile_cons_of_neg hc]
      · have hd : dropWhileEnd p (c :: cs) = c :: dropWhileEnd p cs := by
          simp only [dropWhileEnd]
          rw [if_neg (by simp [List.isEmpty_iff, hE])]
        rw [hd, List.dropWhile_cons_of_neg hc]

theorem trimSpaceChars_dropWhile (l : List Char) :
    trimSpaceChars (l.dropWhile isSpaceChar) = trimSpaceChars l := by
  unfold trimSpaceChars
  rw [dropWhileEnd_dropWhile_comm isSpaceChar l, dropWhile_idem]

theorem trimSpaceChars_dropWhileEnd (l : List Char) :
    trimSpaceChars (dropWhileEnd isSpaceChar l) = trimSpaceChars l := by
  unfold trimSpaceChars
  rw [dropWhileEnd_idem]

theorem dropLast_append_getLastD {α : Type} (d : α) : (L : List α) → L ≠ [] →
    L.dropLast ++ [L.getLastD d] = L
  | [x], _ => rfl
  | x :: y :: r, _ => by
    rw [List.dropLast_cons₂, List.getLastD_cons]
    simp only [List.cons_append]
    rw [dropLast_append_getLastD x (y :: r) (by simp)]

theorem mapTrim_split_dropWhile (sep : Char) (hsep : isSpaceChar sep = false) (l : List Char) :
    (splitOnChar sep (l.dropWhile isSpaceChar)).map trimSpaceChars =
      (splitOnChar sep l).map trimSpaceChars := by
  rw [splitOnChar_dropWhile sep isSpaceChar hsep l]
  conv_rhs => rw [headD_cons_tail sep l]
  simp only [List.map_cons]
  rw [trimSpaceChars_dropWhile]

theorem mapTrim_split_dropWhileEnd (sep : Char) (hsep : isSpaceChar sep = false)
    (l : List Char) :
    (splitOnChar sep (dropWhileEnd isSpaceChar l)).map trimSpaceChars =
      (splitOnChar sep l).map trimSpaceChars := by
  rw [splitOnChar_dropWhileEnd sep isSpaceChar hsep l]
  conv_rhs => rw [← dropLast_append_getLastD [] (splitOnChar sep l) (splitOnChar_ne_nil sep l)]
  simp only [List.map_append, List.map_cons, List.map_nil]
  rw [trimSpaceChars_dropWhileEnd]

theorem mapTrim_split_trim (sep : Char) (hsep : isSpaceChar sep = false) (l : List Char) :
    (splitOnChar sep (trimSpaceChars l)).map trimSpaceChars =
      (splitOnChar sep l).map trimSpaceChars := by
  show (splitOnChar sep ((dropWhileEnd isSpaceChar l).dropWhile isSpaceChar)).map trimSpaceChars
      = (splitOnChar sep l).map trimSpaceChars
  rw [mapTrim_split_dropWhile sep hsep (dropWhileEnd isSpaceChar l),
    mapTrim_split_dropWhileEnd sep hsep l]

theorem all_space_of_trim_nil (l : List Char) (h : trimSpaceChars l = []) :
    ∀ c ∈ l, isSpaceChar c = true := by
  intro c hc
  by_cases hs : isSpaceChar c = true
  · exact hs
  · have hs' : isSpaceChar c = false := by simpa using hs
    exact absurd h (trimSpaceChars_ne_nil_of_mem c hs' l hc)

theorem parseComposeServices_eq_spec (s : String) :
    parseComposeServices s =
      ((splitOnChar ',' s.data).map
        (fun g => (⟨trimSpaceChars g⟩ : String))).filter (fun x => x ≠ "") := by
  unfold parseComposeServices
  by_cases h : stringsTrimSpace s = ""
  · rw [if_pos h]
    have htrim : trimSpaceChars s.data = [] := by
      simpa [stringsTrimSpace] using congrArg String.data h
    have hall := all_space_of_trim_nil s.data htrim
    have hmem : (',' : Char) ∉ s.data := by
      intro hm
      have hx := hall ',' hm
      simp [isSpaceChar] at hx
    rw [splitOnChar_of_not_mem ',' s.data hmem]
    simp [htrim]
  · rw [if_neg h]
    have hdata : (stringsTrimSpace s).data = trimSpaceChars s.data := rfl
    rw [hdata]
    have hmk : ∀ X : List (List Char),
        X.map (fun g => (⟨trimSpaceChars g⟩ : String)) =
          (X.map trimSpaceChars).map (fun g => (⟨g⟩ : String)) := by
      intro X
      rw [List.map_map]
      rfl
    rw [hmk, hmk, mapTrim_split_trim ',' (by decide) s.data]

/-- **C10** — The compose service selector is split on commas into exactly its
non-empty trimmed segments: whitespace-only and empty segments (doubled or
trailing commas, as in `"web,,db, "`) are silently dropped rather than
rejected; a selector consisting only of commas and whitespace behaves exactly
like the empty selector (all services); and when the fields are present and
every parsed name matches the service-name pattern, exactly the parsed names
are appended to the compose invocation (with the override file generated for
them). -/
theorem composeServices_selector_behavior :
    (∀ s : String, parseComposeServices s =
        ((splitOnChar ',' s.data).map (fun g => (⟨trimSpaceChars g⟩ : String))).filter
          (fun x => x ≠ "")) ∧
    (∀ (op : String) (spec : ComposeSpec) (args : List String),
        parseComposeServices spec.composeService = [] →
        composeCmdArgs op spec args =
          composeCmdArgs op { spec with composeService := "" } args) ∧
    (∀ (op : String) (spec : ComposeSpec) (args : List String),
        spec.projectID ≠ "" → spec.workDir ≠ "" → stringsTrimSpace spec.composeFile ≠ "" →
        (∀ svc ∈ parseComposeServices spec.composeService, composeServiceRe svc = true) →
        composeCmdArgs op spec args =
          .ok (if (parseComposeServices spec.composeService).isEmpty then
                 (["compose", "-p", "last-deploy-" ++ spec.projectID, "-f",
                   (if filepathIsAbs (normalizeComposeFile spec.composeFile spec.projectID)
                    then normalizeComposeFile spec.composeFile spec.projectID
                    else filepathJoin spec.workDir
                      (normalizeComposeFile spec.composeFile spec.projectID))] ++ args, none)
               else
                 (["compose", "-p", "last-deploy-" ++ spec.projectID, "-f",
                   (if filepathIsAbs (normalizeComposeFile spec.composeFile spec.projectID)
                    then normalizeComposeFile spec.composeFile spec.projectID
                    else filepathJoin spec.workDir
                      (normalizeComposeFile spec.composeFile spec.projectID))] ++
                    ["-f", op] ++ args ++ parseComposeServices spec.composeService,
                  some (op, composeOverrideContent spec.projectID
                    (parseComposeServices spec.composeService))))) := by
  refine ⟨parseComposeServices_eq_spec, ?_, ?_⟩
  · intro op spec args h
    unfold composeCmdArgs
    rw [h]
    rfl
  · intro op spec args h1 h2 h3 hall
    unfold composeCmdArgs
    rw [if_neg h1, if_neg h2, if_neg h3]
    have hnone : (parseComposeServices spec.composeService).find?
        (fun svc => ¬ composeServiceRe svc) = none := by
      rw [List.find?_eq_none]
      intro x hx
      simp [hall x hx]
    dsimp only
    rw [hnone]
    by_cases hempty : (parseComposeServices spec.composeService).isEmpty = true
    · rw [if_pos hempty, if_pos hempty]
    · rw [if_neg hempty, if_neg hempty]


/-- A spec whose selector contains only commas and whitespace. -/
def specWS : ComposeSpec := ⟨"p1", "/data/repos/p1", "", "docker-compose.yml", " ,, "⟩

/-- Witness for C10: a commas/whitespace-only selector yields no services and
the invocation equals the empty-selector invocation. -/
theorem composeServices_selector_behavior_witness :
    parseComposeServices " ,, " = [] ∧
    composeCmdArgs "/tmp/o.yml" specWS ["up", "-d"] =
      composeCmdArgs "/tmp/o.yml" { specWS with composeService := "" } ["up", "-d"] :=
  ⟨by decide,
    composeServices_selector_behavior.2.1 "/tmp/o.yml" specWS ["up", "-d"] (by decide)⟩

/-! ## Path containment machinery (claims C1, C2) -/

theorem splitOnChar_append_sep (sep : Char) : (a b : List Char) →
    splitOnChar sep (a ++ sep :: b) = splitOnChar sep a ++ splitOnChar sep b
  | [], b => by
    simp only [List.nil_append]
    rw [splitOnChar_cons_sep]
    rfl
  | c :: cs, b => by
    by_cases he : c = sep
    · subst he
      simp only [List.cons_append]
      rw [splitOnChar_cons_sep, splitOnChar_cons_sep, splitOnChar_append_sep c cs b]
      rfl
    · simp only [List.cons_append]
      rw [splitOnChar_cons_ne sep c he _, splitOnChar_cons_ne sep c he cs,
        splitOnChar_append_sep sep cs b]
      cases hs : splitOnChar sep cs with
      | nil => exact absurd hs (splitOnChar_ne_nil sep cs)
      | cons g gs => simp

theorem pathComponents_append (a b : List Char) :
    pathComponents (a ++ '/' :: b) = pathComponents a ++ pathComponents b := by
  unfold pathComponents
  rw [splitOnChar_append_sep '/' a b, List.filter_append]

theorem not_mem_of_mem_splitOnChar (sep : Char) : (l : List Char) → (g : List Char) →
    g ∈ splitOnChar sep l → sep ∉ g
  | [], g, hg => by
    simp [splitOnChar] at hg
    rw [hg]
    exact List.not_mem_nil sep
  | c :: cs, g, hg => by
    by_cases he : c = sep
    · subst he
      rw [splitOnChar_cons_sep] at hg
      rcases List.mem_cons.mp hg with h | h
      · rw [h]
        exact List.not_mem_nil c
      · exact not_mem_of_mem_splitOnChar c cs g h
    · rw [splitOnChar_cons_ne sep c he cs] at hg
      rcases List.mem_cons.mp hg with h | h
      · cases hs : splitOnChar sep cs with
        | nil => exact absurd hs (splitOnChar_ne_nil sep cs)
        | cons g0 gs =>
          rw [hs] at h
          simp only [List.headD_cons] at h
          have hg0 : g0 ∈ splitOnChar sep cs := by
            rw [hs]
            exact List.mem_cons_self g0 gs
          have hnm := not_mem_of_mem_splitOnChar sep cs g0 hg0
          rw [h]
          intro hmem
          rcases List.mem_cons.mp hmem with h' | h'
          · exact he h'.symm
          · exact hnm h'
      · cases hs : splitOnChar sep cs with
        | nil => exact absurd hs (splitOnChar_ne_nil sep cs)
        | cons g0 gs =>
          rw [hs] at h
          simp only [List.tail_cons] at h
          exact not_mem_of_mem_splitOnChar sep cs g (by rw [hs]; exact List.mem_cons_of_mem g0 h)

/-- Every path component is nonempty, not `.`, and contains no separator. -/
theorem pathComponents_good (l : List Char) (c : List Char) (hc : c ∈ pathComponents l) :
    c ≠ [] ∧ c ≠ ['.'] ∧ '/' ∉ c := by
  unfold pathComponents at hc
  have hmem := List.mem_of_mem_filter hc
  have hfilt := List.of_mem_filter hc
  simp only [Bool.not_eq_true', Bool.or_eq_false_iff] at hfilt
  refine ⟨?_, ?_, not_mem_of_mem_splitOnChar '/' l c hmem⟩
  · intro h
    rw [h] at hfilt
    simp at hfilt
  · intro h
    rw [h] at hfilt
    simp at hfilt

theorem mem_cleanFold (rooted : Bool) : (acc cs : List (List Char)) → (x : List Char) →
    x ∈ cleanFold rooted acc cs → x ∈ acc ∨ x ∈ cs
  | acc, [], x, hx => by
    simp only [cleanFold] at hx
    exact Or.inl (List.mem_reverse.mp hx)
  | acc, comp :: rest, x, hx => by
    simp only [cleanFold] at hx
    by_cases hc : comp = dotdot
    · rw [if_pos hc] at hx
      cases acc with
      | nil =>
        dsimp only at hx
        by_cases hr : rooted = true
        · rw [if_pos hr] at hx
          rcases mem_cleanFold rooted [] rest x hx with h | h
          · exact Or.inl h
          · exact Or.inr (List.mem_cons_of_mem comp h)
        · rw [if_neg hr] at hx
          rcases mem_cleanFold rooted [comp] rest x hx with h | h
          · rcases List.mem_cons.mp h with h' | h'
            · exact Or.inr (by rw [h']; exact List.mem_cons_self comp rest)
            · cases h'
          · exact Or.inr (List.mem_cons_of_mem comp h)
      | cons top accTail =>
        dsimp only at hx
        by_cases ht : top = dotdot
        · rw [if_pos ht] at hx
          rcases mem_cleanFold rooted (comp :: top :: accTail) rest x hx with h | h
          · rcases List.mem_cons.mp h with h' | h'
            · exact Or.inr (by rw [h']; exact List.mem_cons_self comp rest)
            · exact Or.inl h'
          · exact Or.inr (List.mem_cons_of_mem comp h)
        · rw [if_neg ht] at hx
          rcases mem_cleanFold rooted accTail rest x hx with h | h
          · exact Or.inl (List.mem_cons_of_mem top h)
          · exact Or.inr (List.mem_cons_of_mem comp h)
    · rw [if_neg hc] at hx
      rcases mem_cleanFold rooted (comp :: acc) rest x hx with h | h
      · rcases List.mem_cons.mp h with h' | h'
        · exact Or.inr (by rw [h']; exact List.mem_cons_self comp rest)
        · exact Or.inl h'
      · exact Or.inr (List.mem_cons_of_mem comp h)

theorem cleanFold_rooted_no_dotdot : (acc cs : List (List Char)) →
    (∀ x ∈ acc, x ≠ dotdot) → (x : List Char) → x ∈ cleanFold true acc cs → x ≠ dotdot
  | acc, [], hacc, x, hx => by
    simp only [cleanFold] at hx
    exact hacc x (List.mem_reverse.mp hx)
  | acc, comp :: rest, hacc, x, hx => by
    simp only [cleanFold] at hx
    by_cases hc : comp = dotdot
    · rw [if_pos hc] at hx
      cases acc with
      | nil =>
        dsimp only at hx
        rw [if_pos trivial] at hx
        exact cleanFold_rooted_no_dotdot [] rest (by intro y hy; cases hy) x hx
      | cons top accTail =>
        dsimp only at hx
        have ht : top ≠ dotdot := hacc top (List.mem_cons_self top accTail)
        rw [if_neg ht] at hx
        exact cleanFold_rooted_no_dotdot accTail rest
          (fun y hy => hacc y (List.mem_cons_of_mem top hy)) x hx
    · rw [if_neg hc] at hx
      exact cleanFold_rooted_no_dotdot (comp :: acc) rest
        (fun y hy => by
          rcases List.mem_cons.mp hy with h' | h'
          · rw [h']; exact hc
          · exact hacc y h') x hx

theorem cleanFold_no_dotdot_noop (rooted : Bool) : (acc cs : List (List Char)) →
    (∀ x ∈ cs, x ≠ dotdot) → cleanFold rooted acc cs = acc.reverse ++ cs
  | acc, [], _ => by simp [cleanFold]
  | acc, comp :: rest, h => by
    simp only [cleanFold]
    rw [if_neg (h comp (List.mem_cons_self comp rest))]
    rw [cleanFold_no_dotdot_noop rooted (comp :: acc) rest
      (fun y hy => h y (List.mem_cons_of_mem comp hy))]
    simp

theorem splitOnChar_intercalate : (cs : List (List Char)) → (∀ c ∈ cs, '/' ∉ c) →
    cs ≠ [] → splitOnChar '/' (intercalateSlash cs) = cs
  | [c], h, _ => by
    show splitOnChar '/' c = [c]
    exact splitOnChar_of_not_mem '/' c (h c (List.mem_cons_self c []))
  | c :: c2 :: rest, h, _ => by
    show splitOnChar '/' (c ++ '/' :: intercalateSlash (c2 :: rest)) = c :: c2 :: rest
    rw [splitOnChar_append_sep '/' c _,
      splitOnChar_of_not_mem '/' c (h c (List.mem_cons_self c _)),
      splitOnChar_intercalate (c2 :: rest)
        (fun x hx => h x (List.mem_cons_of_mem c hx)) (by simp)]
    rfl

theorem filter_good_eq_self (cs : List (List Char))
    (hgood : ∀ c ∈ cs, c ≠ [] ∧ c ≠ ['.']) :
    cs.filter (fun c => !(c.isEmpty || c = ['.'])) = cs := by
  rw [List.filter_eq_self]
  intro c hc
  have h := hgood c hc
  simp [List.isEmpty_iff, h.1, h.2]

theorem pathComponents_render (rooted : Bool) (cs : List (List Char))
    (hgood : ∀ c ∈ cs, c ≠ [] ∧ c ≠ ['.'] ∧ '/' ∉ c) :
    pathComponents (renderPath rooted cs) = cs := by
  cases cs with
  | nil =>
    cases rooted <;> decide
  | cons c rest =>
    have hsplit := splitOnChar_intercalate (c :: rest)
      (fun x hx => (hgood x hx).2.2) (by simp)
    have hfilt := filter_good_eq_self (c :: rest) (fun x hx => ⟨(hgood x hx).1, (hgood x hx).2.1⟩)
    cases rooted with
    | false =>
      show pathComponents ([] ++ intercalateSlash (c :: rest)) = c :: rest
      unfold pathComponents
      rw [List.nil_append, hsplit, hfilt]
    | true =>
      show pathComponents (['/'] ++ intercalateSlash (c :: rest)) = c :: rest
      unfold pathComponents
      rw [show (['/'] ++ intercalateSlash (c :: rest)) = '/' :: intercalateSlash (c :: rest) from rfl,
        splitOnChar_cons_sep, hsplit]
      show List.filter _ ([] :: c :: rest) = c :: rest
      rw [List.filter_cons]
      simp only [List.isEmpty_nil, Bool.true_or, Bool.not_true, if_neg (by simp : ¬ (false = true))]
      exact hfilt

theorem isRooted_render_true (cs : List (List Char)) :
    isRooted (renderPath true cs) = true := by
  cases cs with
  | nil => rfl
  | cons c rest => rfl

theorem cleanChars_of_rooted (l : List Char) (hr : isRooted l = true) :
    cleanChars l = renderPath true (cleanFold true [] (pathComponents l)) := by
  unfold cleanChars
  rw [hr]

theorem cleanFold_init_good (l : List Char) :
    ∀ x ∈ cleanFold true [] (pathComponents l), x ≠ [] ∧ x ≠ ['.'] ∧ '/' ∉ x := by
  intro x hx
  rcases mem_cleanFold true [] (pathComponents l) x hx with h | h
  · cases h
  · exact pathComponents_good l x h

theorem cleanFold_init_no_dotdot (l : List Char) :
    ∀ x ∈ cleanFold true [] (pathComponents l), x ≠ dotdot :=
  fun x hx => cleanFold_rooted_no_dotdot [] (pathComponents l) (fun y hy => by cases hy) x hx

theorem pathComponents_cleanChars (l : List Char) (hr : isRooted l = true) :
    pathComponents (cleanChars l) = cleanFold true [] (pathComponents l) := by
  rw [cleanChars_of_rooted l hr]
  exact pathComponents_render true _ (cleanFold_init_good l)

theorem isRooted_cleanChars (l : List Char) (hr : isRooted l = true) :
    isRooted (cleanChars l) = true := by
  rw [cleanChars_of_rooted l hr]
  exact isRooted_render_true _

theorem cleanChars_idem (l : List Char) (hr : isRooted l = true) :
    cleanChars (cleanChars l) = cleanChars l := by
  rw [cleanChars_of_rooted (cleanChars l) (isRooted_cleanChars l hr),
    pathComponents_cleanChars l hr,
    cleanFold_no_dotdot_noop true [] _ (cleanFold_init_no_dotdot l),
    List.reverse_nil, List.nil_append, ← cleanChars_of_rooted l hr]

theorem dropCommon_prefix : (W P : List (List Char)) → dropCommon W (W ++ P) = ([], P)
  | [], P => by
    cases P with
    | nil => rfl
    | cons p ps => rfl
  | w :: ws, P => by
    show dropCommon (w :: ws) (w :: (ws ++ P)) = ([], P)
    unfold dropCommon
    rw [if_pos rfl]
    exact dropCommon_prefix ws P

theorem isPreOf_mem : (pat l : List Char) → isPreOf pat l = true → ∀ x ∈ pat, x ∈ l
  | [], _, _, x, hx => by cases hx
  | p :: ps, c :: cs, h, x, hx => by
    simp only [isPreOf, Bool.and_eq_true, decide_eq_true_eq] at h
    rcases List.mem_cons.mp hx with h' | h'
    · rw [h', h.1]
      exact List.mem_cons_self c cs
    · exact List.mem_cons_of_mem c (isPreOf_mem ps cs h.2 x h')

theorem intercalate_not_escape (P : List (List Char))
    (hgood : ∀ p ∈ P, p ≠ [] ∧ '/' ∉ p) (hdd : ∀ p ∈ P, p ≠ dotdot) :
    intercalateSlash P ≠ dotdot ∧ isPreOf "../".data (intercalateSlash P) = false := by
  cases P with
  | nil =>
    constructor
    · intro h
      cases h
    · rfl
  | cons p rest =>
    cases rest with
    | nil =>
      constructor
      · exact hdd p (List.mem_cons_self p [])
      · show isPreOf "../".data p = false
        by_cases hp : isPreOf "../".data p = true
        · have hm : ('/' : Char) ∈ p := isPreOf_mem "../".data p hp '/' (by decide)
          exact absurd hm (hgood p (List.mem_cons_self p _)).2
        · simpa using hp
    | cons q rest' =>
      have hx : intercalateSlash (p :: q :: rest') = p ++ '/' :: intercalateSlash (q :: rest') := rfl
      rw [hx]
      have hpgood := hgood p (List.mem_cons_self p _)
      constructor
      · intro h
        have hm : ('/' : Char) ∈ p ++ '/' :: intercalateSlash (q :: rest') :=
          List.mem_append_right p (List.mem_cons_self '/' _)
        rw [h] at hm
        have : ('/' : Char) ∉ dotdot := by decide
        exact this hm
      · cases p with
        | nil => exact absurd rfl hpgood.1
        | cons c1 p1 =>
          cases p1 with
          | nil =>
            show isPreOf "../".data (c1 :: '/' :: intercalateSlash (q :: rest')) = false
            show (decide ('.' = c1) && (decide ('.' = '/') &&
              isPreOf ['/'] (intercalateSlash (q :: rest')))) = false
            simp
          | cons c2 p2 =>
            cases p2 with
            | nil =>
              show isPreOf "../".data (c1 :: c2 :: '/' :: intercalateSlash (q :: rest')) = false
              by_cases hc1 : ('.' : Char) = c1
              · by_cases hc2 : ('.' : Char) = c2
                · exfalso
                  apply hdd (c1 :: [c2]) (List.mem_cons_self _ _)
                  rw [← hc1, ← hc2]
                  rfl
                · show (decide ('.' = c1) && (decide ('.' = c2) && _)) = false
                  simp [hc2]
              · show (decide ('.' = c1) && _) = false
                simp [hc1]
            | cons c3 p3 =>
              have hc3 : ('/' : Char) ≠ c3 := by
                intro h
                exact hpgood.2 (by
                  rw [← h]
                  exact List.mem_cons_of_mem c1 (List.mem_cons_of_mem c2 (List.mem_cons_self '/' p3)))
              show isPreOf "../".data (c1 :: c2 :: c3 :: (p3 ++ '/' :: intercalateSlash (q :: rest'))) = false
              show (decide ('.' = c1) && (decide ('.' = c2) && (decide ('/' = c3) && _))) = false
              simp [hc3]

theorem isRooted_ne_nil (l : List Char) (h : isRooted l = true) : l ≠ [] := by
  intro he
  rw [he] at h
  cases h

theorem isRooted_append (l x : List Char) (h : isRooted l = true) :
    isRooted (l ++ x) = true := by
  cases l with
  | nil => exact absurd h (by decide)
  | cons c cs => exact h

theorem rel_join_ok (w r : String) (habs : filepathIsAbs w = true)
    (hclean : filepathClean w = w)
    (hdd : dotdot ∉ splitOnChar '/' r.data) :
    ∃ res : String, filepathRel w (filepathJoin w r) = .ok res ∧
      res ≠ ".." ∧ isPreOf "../".data res.data = false := by
  have hwroot : isRooted w.data = true := habs
  have hwne : w ≠ "" := by
    intro h
    rw [h] at habs
    exact absurd habs (by decide)
  have hcleandata : cleanChars w.data = w.data := congrArg String.data hclean
  by_cases hr0 : r = ""
  · subst hr0
    have hj : filepathJoin w "" = w := by
      unfold filepathJoin
      rw [if_neg (by simp [hwne]), if_neg hwne, if_pos rfl]
      exact hclean
    refine ⟨".", ?_, by decide, by decide⟩
    rw [hj]
    unfold filepathRel
    dsimp only
    rw [if_pos rfl]
  · have hj : filepathJoin w r = ⟨cleanChars (w.data ++ '/' :: r.data)⟩ := by
      unfold filepathJoin
      rw [if_neg (by simp [hwne]), if_neg hwne, if_neg hr0]
    have hLroot : isRooted (w.data ++ '/' :: r.data) = true :=
      isRooted_append w.data _ hwroot
    have hcompL : pathComponents (w.data ++ '/' :: r.data) =
        pathComponents w.data ++ pathComponents r.data := pathComponents_append _ _
    have hWdd : ∀ x ∈ pathComponents w.data, x ≠ dotdot := by
      have hfix : pathComponents w.data = cleanFold true [] (pathComponents w.data) := by
        conv_lhs => rw [← hcleandata]
        exact pathComponents_cleanChars w.data hwroot
      intro x hx
      rw [hfix] at hx
      exact cleanFold_init_no_dotdot w.data x hx
    have hPdd : ∀ x ∈ pathComponents r.data, x ≠ dotdot := by
      intro x hx hxeq
      apply hdd
      rw [← hxeq]
      exact List.mem_of_mem_filter hx
    have hLdd : ∀ x ∈ pathComponents (w.data ++ '/' :: r.data), x ≠ dotdot := by
      rw [hcompL]
      intro x hx
      rcases List.mem_append.mp hx with h | h
      · exact hWdd x h
      · exact hPdd x h
    have hgoodL := pathComponents_good (w.data ++ '/' :: r.data)
    have hjdata : (filepathJoin w r).data =
        renderPath true (pathComponents (w.data ++ '/' :: r.data)) := by
      rw [hj]
      show cleanChars (w.data ++ '/' :: r.data) = _
      rw [cleanChars_of_rooted _ hLroot, cleanFold_no_dotdot_noop true [] _ hLdd,
        List.reverse_nil, List.nil_append]
    have htd : cleanChars (filepathJoin w r).data =
        renderPath true (pathComponents (w.data ++ '/' :: r.data)) := by
      rw [hjdata, cleanChars_of_rooted _ (isRooted_render_true _),
        pathComponents_render true _ hgoodL, cleanFold_no_dotdot_noop true [] _ hLdd,
        List.reverse_nil, List.nil_append]
    unfold filepathRel
    dsimp only
    rw [hcleandata, htd]
    by_cases hbt : w.data = renderPath true (pathComponents (w.data ++ '/' :: r.data))
    · rw [if_pos hbt]
      exact ⟨".", rfl, by decide, by decide⟩
    · rw [if_neg hbt]
      rw [if_neg (by
        rw [hwroot, isRooted_render_true]
        intro hcon
        exact hcon rfl)]
      rw [pathComponents_render true _ hgoodL, hcompL, dropCommon_prefix]
      rw [if_neg (by simp)]
      have hPgood : ∀ p ∈ pathComponents r.data, p ≠ [] ∧ '/' ∉ p := by
        intro p hp
        have h := pathComponents_good r.data p hp
        exact ⟨h.1, h.2.2⟩
      have hesc := intercalate_not_escape (pathComponents r.data) hPgood hPdd
      refine ⟨⟨intercalateSlash (pathComponents r.data)⟩, ?_, ?_, ?_⟩
      · simp
      · intro hcon
        have hdata := congrArg String.data hcon
        exact hesc.1 (by simpa using hdata)
      · exact hesc.2


/-- Joining a relative path free of `..` segments onto an absolute, cleaned
base never escapes the base. -/
theorem join_no_escape (w r : String) (habs : filepathIsAbs w = true)
    (hclean : filepathClean w = w) (hdd : dotdot ∉ splitOnChar '/' r.data) :
    escapesDir w (filepathJoin w r) = false := by
  obtain ⟨res, hok, hne, hpre⟩ := rel_join_ok w r habs hclean hdd
  unfold escapesDir
  rw [hok]
  simp [hne, hpre]


theorem writeFile_not_mem_runCompose (env : WorkerEnv) (result : Except String Unit)
    (spec : ComposeSpec) (args : List String) (pth cnt : String) :
    Effect.writeFile pth cnt ∉ (runComposeUpStop env result spec args).1 := by
  intro hmem
  unfold runComposeUpStop at hmem
  cases hc : composeCmdArgs env.overridePath spec args with
  | error e =>
    rw [hc] at hmem
    simp at hmem
  | ok pr =>
    rcases pr with ⟨cmdArgs, over⟩
    cases over with
    | none =>
      rw [hc] at hmem
      simp at hmem
    | some pc =>
      rcases pc with ⟨path, content⟩
      rw [hc] at hmem
      cases hw : env.overrideWriteResult with
      | error e =>
        rw [hw] at hmem
        simp at hmem
      | ok u =>
        rw [hw] at hmem
        simp at hmem

theorem writeFile_not_mem_composeOp (env : WorkerEnv) (cwd : String) (cfg : Config)
    (p : Project) (jobID step : String) (result : Except String Unit) (args : List String)
    (st : Store) (pth cnt : String) :
    Effect.writeFile pth cnt ∉ (workerComposeOp env cwd cfg p jobID step result args st).fx := by
  intro hmem
  unfold workerComposeOp at hmem
  cases hwd : WorkDir cwd cfg p with
  | error e =>
    rw [hwd] at hmem
    simp at hmem
  | ok workDir =>
    rw [hwd] at hmem
    dsimp only at hmem
    exact writeFile_not_mem_runCompose env result
      ⟨p.id, workDir, (HostWorkDir cwd cfg p).toOption.getD "", p.composeFile, p.composeService⟩
      args pth cnt hmem

theorem writeFile_not_mem_dockerfileDeploy (env : WorkerEnv) (cwd : String) (cfg : Config)
    (p : Project) (jobID : String) (st : Store) (pth cnt : String) :
    Effect.writeFile pth cnt ∉ (dockerfileDeploy env cwd cfg p jobID st).fx := by
  intro hmem
  unfold dockerfileDeploy at hmem
  repeat' split at hmem
  all_goals simp_all

theorem deploy_writeFile_mem (env : WorkerEnv) (cwd : String) (cfg : Config) (p : Project)
    (jobID : String) (st : Store) (pth cnt : String)
    (hmem : Effect.writeFile pth cnt ∈ (deploy env cwd cfg p jobID st).fx) :
    ∃ workDir, WorkDir cwd cfg p = .ok workDir ∧
      ((pth = filepathJoin workDir p.dockerfilePath ∧ cnt = p.dockerfileContent) ∨
       (pth = filepathJoin workDir p.composeFile ∧ cnt = p.composeContent)) := by
  unfold deploy at hmem
  cases hcl : env.cloneResult with
  | error e =>
    simp only [cloneProject, hcl] at hmem
    simp at hmem
  | ok u =>
    simp only [cloneProject, hcl] at hmem
    cases hwd : WorkDir cwd cfg p with
    | error e =>
      rw [hwd] at hmem
      simp at hmem
    | ok workDir =>
      rw [hwd] at hmem
      refine ⟨workDir, rfl, ?_⟩
      dsimp only at hmem
      by_cases hdc : p.dockerfileContent ≠ "" ∧ p.dockerfilePath ≠ ""
      · rw [if_pos hdc] at hmem
        cases hw1 : env.writeDockerfileResult with
        | error e1 =>
          rw [hw1] at hmem
          dsimp only at hmem
          simp at hmem
          exact Or.inl ⟨hmem.1, hmem.2⟩
        | ok u1 =>
          rw [hw1] at hmem
          dsimp only at hmem
          by_cases hcc : p.composeContent ≠ "" ∧ p.composeFile ≠ ""
          · rw [if_pos hcc] at hmem
            cases hw2 : env.writeComposeResult with
            | error e2 =>
              rw [hw2] at hmem
              dsimp only at hmem
              simp at hmem
              rcases hmem with h | h
              · exact Or.inl ⟨h.1, h.2⟩
              · exact Or.inr ⟨h.1, h.2⟩
            | ok u2 =>
              rw [hw2] at hmem
              dsimp only at hmem
              cases hdt : ResolveDeployType p.deployType p.composeFile with
              | compose =>
                rw [hdt] at hmem
                repeat' split at hmem
                all_goals
                  simp at hmem
                  rcases hmem with h | h | h
                  · exact Or.inl ⟨h.1, h.2⟩
                  · exact Or.inr ⟨h.1, h.2⟩
                  · first
                    | exact absurd h (writeFile_not_mem_composeOp _ _ _ _ _ _ _ _ _ _ _)
                    | exact absurd h (writeFile_not_mem_dockerfileDeploy _ _ _ _ _ _ _ _)
              | dockerfile =>
                rw [hdt] at hmem
                repeat' split at hmem
                all_goals
                  simp at hmem
                  rcases hmem with h | h | h
                  · exact Or.inl ⟨h.1, h.2⟩
                  · exact Or.inr ⟨h.1, h.2⟩
                  · first
                    | exact absurd h (writeFile_not_mem_dockerfileDeploy _ _ _ _ _ _ _ _)
                    | exact absurd h (writeFile_not_mem_composeOp _ _ _ _ _ _ _ _ _ _ _)
          · rw [if_neg hcc] at hmem
            dsimp only at hmem
            cases hdt : ResolveDeployType p.deployType p.composeFile with
            | compose =>
              rw [hdt] at hmem
              repeat' split at hmem
              all_goals
                simp at hmem
                rcases hmem with h | h
                · exact Or.inl ⟨h.1, h.2⟩
                · first
                    | exact absurd h (writeFile_not_mem_composeOp _ _ _ _ _ _ _ _ _ _ _)
                    | exact absurd h (writeFile_not_mem_dockerfileDeploy _ _ _ _ _ _ _ _)
            | dockerfile =>
              rw [hdt] at hmem
              repeat' split at hmem
              all_goals
                simp at hmem
                rcases hmem with h | h
                · exact Or.inl ⟨h.1, h.2⟩
                · first
                    | exact absurd h (writeFile_not_mem_dockerfileDeploy _ _ _ _ _ _ _ _)
                    | exact absurd h (writeFile_not_mem_composeOp _ _ _ _ _ _ _ _ _ _ _)
      · rw [if_neg hdc] at hmem
        dsimp only at hmem
        by_cases hcc : p.composeContent ≠ "" ∧ p.composeFile ≠ ""
        · rw [if_pos hcc] at hmem
          cases hw2 : env.writeComposeResult with
          | error e2 =>
            rw [hw2] at hmem
            dsimp only at hmem
            simp at hmem
            exact Or.inr ⟨hmem.1, hmem.2⟩
          | ok u2 =>
            rw [hw2] at hmem
            dsimp only at hmem
            cases hdt : ResolveDeployType p.deployType p.composeFile with
            | compose =>
              rw [hdt] at hmem
              repeat' split at hmem
              all_goals
                simp at hmem
                rcases hmem with h | h
                · exact Or.inr ⟨h.1, h.2⟩
                · first
                    | exact absurd h (writeFile_not_mem_composeOp _ _ _ _ _ _ _ _ _ _ _)
                    | exact absurd h (writeFile_not_mem_dockerfileDeploy _ _ _ _ _ _ _ _)
            | dockerfile =>
              rw [hdt] at hmem
              repeat' split at hmem
              all_goals
                simp at hmem
                rcases hmem with h | h
                · exact Or.inr ⟨h.1, h.2⟩
                · first
                    | exact absurd h (writeFile_not_mem_dockerfileDeploy _ _ _ _ _ _ _ _)
                    | exact absurd h (writeFile_not_mem_composeOp _ _ _ _ _ _ _ _ _ _ _)
        · rw [if_neg hcc] at hmem
          dsimp only at hmem
          cases hdt : ResolveDeployType p.deployType p.composeFile with
          | compose =>
            rw [hdt] at hmem
            repeat' split at hmem
            all_goals
              simp at hmem
              first
                | exact absurd hmem (writeFile_not_mem_composeOp _ _ _ _ _ _ _ _ _ _ _)
                | first
                | exact absurd hmem (writeFile_not_mem_dockerfileDeploy _ _ _ _ _ _ _ _)
                | exact absurd hmem (writeFile_not_mem_composeOp _ _ _ _ _ _ _ _ _ _ _)
          | dockerfile =>
            rw [hdt] at hmem
            repeat' split at hmem
            all_goals
              simp at hmem
              first
                | exact absurd hmem (writeFile_not_mem_dockerfileDeploy _ _ _ _ _ _ _ _)
                | exact absurd hmem (writeFile_not_mem_composeOp _ _ _ _ _ _ _ _ _ _ _)

/-- A project whose configured Dockerfile path contains a `..` traversal
segment, with literal Dockerfile content to materialize. -/
def projEvil : Project :=
  { projFix with
    dockerfileContent := "X"
    dockerfilePath := "../evil" }

/-- C2 (amended): during the deploy operation, every file-write effect
materializes the project's literal Dockerfile content at
`filepath.Join(workDir, dockerfilePath)` or its literal compose content at
`filepath.Join(workDir, composeFile)`, where `workDir` is the resolved
working directory.  The configured relative path is used as-is in the join
with no traversal validation, so the materialized file is not guaranteed to
stay within the working directory (see `deploy_path_escape_cex`). -/
theorem deploy_materializes_at_join (env : WorkerEnv) (cwd : String) (cfg : Config)
    (p : Project) (jobID : String) (st : Store) (pth cnt : String)
    (hmem : Effect.writeFile pth cnt ∈ (deploy env cwd cfg p jobID st).fx) :
    ∃ workDir, WorkDir cwd cfg p = .ok workDir ∧
      ((pth = filepathJoin workDir p.dockerfilePath ∧ cnt = p.dockerfileContent) ∨
       (pth = filepathJoin workDir p.composeFile ∧ cnt = p.composeContent)) :=
  deploy_writeFile_mem env cwd cfg p jobID st pth cnt hmem

set_option maxRecDepth 8000 in
/-- Witness for `deploy_materializes_at_join` at a concrete deploy run that
actually performs a file write. -/
theorem deploy_materializes_at_join_witness :
    (Effect.writeFile "/data/repos/evil" "X" ∈
        (deploy envFix "/cwd" cfgFix projEvil "j1" stNonQueuedFix).fx) ∧
    ∃ workDir, WorkDir "/cwd" cfgFix projEvil = .ok workDir ∧
      (("/data/repos/evil" = filepathJoin workDir projEvil.dockerfilePath ∧
          "X" = projEvil.dockerfileContent) ∨
       ("/data/repos/evil" = filepathJoin workDir projEvil.composeFile ∧
          "X" = projEvil.composeContent)) :=
  ⟨by decide,
   deploy_materializes_at_join envFix "/cwd" cfgFix projEvil "j1" stNonQueuedFix
     "/data/repos/evil" "X" (by decide)⟩

set_option maxRecDepth 8000 in
/-- C2 counterexample: for the project `projEvil`, whose configured
Dockerfile path is `../evil`, the deploy operation resolves the working
directory to `/data/repos/p1` yet writes the Dockerfile content at
`/data/repos/evil` — a location that escapes the working directory, so the
materialized file's location does not stay within it. -/
theorem deploy_path_escape_cex :
    WorkDir "/cwd" cfgFix projEvil = .ok "/data/repos/p1" ∧
    (Effect.writeFile "/data/repos/evil" "X" ∈
        (deploy envFix "/cwd" cfgFix projEvil "j1" stNonQueuedFix).fx) ∧
    filepathJoin "/data/repos/p1" projEvil.dockerfilePath = "/data/repos/evil" ∧
    escapesDir "/data/repos/p1" "/data/repos/evil" = true := by
  refine ⟨by decide, by decide, by decide, by decide⟩

/-! ## Claim C4 -/

/-- Neither sub-operation of a deploy touches the project rows. -/
theorem projectRecord_cloneProject (env : WorkerEnv) (cfg : Config) (p : Project)
    (jobID : String) (st : Store) (pid : String) :
    (cloneProject env cfg p jobID st).store.projectRecord pid = st.projectRecord pid := by
  unfold cloneProject
  simp

theorem projectRecord_dockerfileDeploy (env : WorkerEnv) (cwd : String) (cfg : Config)
    (p : Project) (jobID : String) (st : Store) (pid : String) :
    (dockerfileDeploy env cwd cfg p jobID st).store.projectRecord pid = st.projectRecord pid := by
  unfold dockerfileDeploy
  repeat' split
  all_goals simp

theorem projectRecord_workerComposeOp (env : WorkerEnv) (cwd : String) (cfg : Config)
    (p : Project) (jobID step : String) (result : Except String Unit) (args : List String)
    (st : Store) (pid : String) :
    (workerComposeOp env cwd cfg p jobID step result args st).store.projectRecord pid =
      st.projectRecord pid := by
  unfold workerComposeOp
  repeat' split
  all_goals simp

/-- The `(status, error)` projection of a stored job. -/
def jobSE (st : Store) (jobID : String) : Option (String × String) :=
  (st.getJob jobID).map (fun j => (j.status, j.error))

theorem jobSE_setJobStep (st : Store) (id step : String) :
    jobSE (st.setJobStep id step) id = jobSE st id := by
  unfold jobSE
  rw [getJob_setJobStep]
  cases st.getJob id <;> rfl

theorem jobSE_appendJobLog (st : Store) (id line : String) :
    jobSE (st.appendJobLog id line) id = jobSE st id := by
  unfold jobSE
  rw [getJob_appendJobLog]
  cases st.getJob id <;> rfl

theorem jobSE_setProjectStatus (st : Store) (pid status : String) (now : Int) (id : String) :
    jobSE (st.setProjectStatus pid status now) id = jobSE st id := rfl

theorem jobSE_cloneProject (env : WorkerEnv) (cfg : Config) (p : Project)
    (jobID : String) (st : Store) :
    jobSE (cloneProject env cfg p jobID st).store jobID = jobSE st jobID := by
  unfold cloneProject
  simp only []
  rw [jobSE_appendJobLog, jobSE_setJobStep]

theorem jobSE_dockerfileDeploy (env : WorkerEnv) (cwd : String) (cfg : Config)
    (p : Project) (jobID : String) (st : Store) :
    jobSE (dockerfileDeploy env cwd cfg p jobID st).store jobID = jobSE st jobID := by
  unfold dockerfileDeploy
  repeat' split
  all_goals simp [jobSE_setJobStep]

theorem jobSE_workerComposeOp (env : WorkerEnv) (cwd : String) (cfg : Config)
    (p : Project) (jobID step : String) (result : Except String Unit) (args : List String)
    (st : Store) :
    jobSE (workerComposeOp env cwd cfg p jobID step result args st).store jobID =
      jobSE st jobID := by
  unfold workerComposeOp
  repeat' split
  all_goals simp [jobSE_setJobStep]

theorem jobSE_deploy (env : WorkerEnv) (cwd : String) (cfg : Config) (p : Project)
    (jobID : String) (st : Store) :
    jobSE (deploy env cwd cfg p jobID st).store jobID = jobSE st jobID := by
  unfold deploy
  repeat' (first | split | (dsimp only; split))
  all_goals
    simp [jobSE_setJobStep, jobSE_appendJobLog, jobSE_setProjectStatus,
      jobSE_cloneProject, jobSE_dockerfileDeploy, workerComposeUp, jobSE_workerComposeOp]

/-- `Worker.deploy` ends in exactly one of two store states for the project
row: `failed` when its result is an error, `running` when it succeeds. -/
theorem deploy_shape (env : WorkerEnv) (cwd : String) (cfg : Config) (p : Project)
    (jobID : String) (st : Store) (proj : Project)
    (hpr : st.projectRecord p.id = some proj) (hlive : proj.deletedAt = none)
    (hid : proj.id = p.id) :
    (∃ e, (deploy env cwd cfg p jobID st).res = .error e ∧
          (deploy env cwd cfg p jobID st).store.projectRecord p.id =
            some { proj with lastStatus := "failed", lastStatusAt := some env.now }) ∨
    ((deploy env cwd cfg p jobID st).res = .ok () ∧
     (deploy env cwd cfg p jobID st).store.projectRecord p.id =
       some { proj with lastStatus := "running", lastStatusAt := some env.now }) := by
  unfold deploy
  repeat' (first | split | (dsimp only; split))
  all_goals first
    | (refine Or.inl ⟨_, rfl, ?_⟩
       simp [projectRecord_cloneProject, projectRecord_dockerfileDeploy,
         workerComposeUp, projectRecord_workerComposeOp, hpr, hid, hlive])
    | (refine Or.inr ⟨rfl, ?_⟩
       simp [projectRecord_cloneProject, projectRecord_dockerfileDeploy,
         workerComposeUp, projectRecord_workerComposeOp, hpr, hid, hlive])

/-- **C4** — For every deploy job (stored status `queued`, type `deploy`): if
the deploy operation returns an error `e`, the project's status is set to
`failed` and the Worker marks the job `failed` with error text `e`; if the
operation succeeds, the project's status is set to `running` and the job is
marked `succeeded`. -/
theorem deploy_marks_outcome (env : WorkerEnv) (cwd : String) (cfg : Config)
    (st : Store) (jobID : String) (job : Job) (proj : Project)
    (hj : st.getJob jobID = some job) (hq : job.status = "queued")
    (ht : job.jobType = "deploy")
    (hpr : st.projectRecord job.projectID = some proj) (hlive : proj.deletedAt = none) :
    (∀ e, (deploy env cwd cfg proj jobID
        ((st.setJobRunning jobID "init" env.now).appendJobLog jobID
          (env.nowStr ++ " job started\n"))).res = .error e →
      ((runJob env cwd cfg st jobID).1.projectRecord job.projectID).map
          (fun q => q.lastStatus) = some "failed" ∧
      ((runJob env cwd cfg st jobID).1.getJob jobID).map
          (fun j => (j.status, j.error)) = some ("failed", e)) ∧
    ((deploy env cwd cfg proj jobID
        ((st.setJobRunning jobID "init" env.now).appendJobLog jobID
          (env.nowStr ++ " job started\n"))).res = .ok () →
      ((runJob env cwd cfg st jobID).1.projectRecord job.projectID).map
          (fun q => q.lastStatus) = some "running" ∧
      ((runJob env cwd cfg st jobID).1.getJob jobID).map
          (fun j => j.status) = some "succeeded") := by
  have hp : st.getProject job.projectID = some proj :=
    getProject_of_projectRecord st job.projectID proj hpr hlive
  have hfindpr : st.projects.find? (fun q => q.id == job.projectID) = some proj := hpr
  have hprid : (proj.id == job.projectID) = true := by
    have hsat := find?_sat (fun q => q.id == job.projectID) proj hfindpr
    simpa using hsat
  have hid2 : proj.id = job.projectID := by simpa [beq_iff_eq] using hprid
  have hpr2 : ((st.setJobRunning jobID "init" env.now).appendJobLog jobID
      (env.nowStr ++ " job started\n")).projectRecord proj.id = some proj := by
    rw [projectRecord_appendJobLog, projectRecord_setJobRunning, hid2]
    exact hpr
  have hshape := deploy_shape env cwd cfg proj jobID
    ((st.setJobRunning jobID "init" env.now).appendJobLog jobID
      (env.nowStr ++ " job started\n")) proj hpr2 hlive rfl
  have hjse := jobSE_deploy env cwd cfg proj jobID
    ((st.setJobRunning jobID "init" env.now).appendJobLog jobID
      (env.nowStr ++ " job started\n"))
  have hjse0 : jobSE ((st.setJobRunning jobID "init" env.now).appendJobLog jobID
      (env.nowStr ++ " job started\n")) jobID = some ("running", job.error) := by
    unfold jobSE
    rw [getJob_appendJobLog, getJob_setJobRunning, hj]
    rfl
  rw [hjse0] at hjse
  constructor
  · intro e he
    rcases hshape with ⟨e', he', hst⟩ | ⟨hok, hst⟩
    · have hee : e' = e := by
        have := he'.symm.trans he
        injection this
      subst hee
      unfold runJob
      rw [hj]
      simp only []
      rw [if_neg (by simp [hq])]
      simp only [getProject_setJobRunning, getProject_appendJobLog]
      rw [hp, ht]
      simp only []
      rw [he']
      simp only [failJob]
      constructor
      · rw [projectRecord_setJobFailed, projectRecord_appendJobLog, ← hid2, hst]
        rfl
      · cases hgj : (deploy env cwd cfg proj jobID
            ((st.setJobRunning jobID "init" env.now).appendJobLog jobID
              (env.nowStr ++ " job started\n"))).store.getJob jobID with
        | none =>
          rw [jobSE, hgj] at hjse
          simp at hjse
        | some j =>
          rw [getJob_setJobFailed, getJob_appendJobLog, hgj]
          rfl
    · rw [hok] at he
      exact absurd he (by simp)
  · intro hok
    rcases hshape with ⟨e', he', hst⟩ | ⟨hok', hst⟩
    · rw [he'] at hok
      exact absurd hok (by simp)
    · unfold runJob
      rw [hj]
      simp only []
      rw [if_neg (by simp [hq])]
      simp only [getProject_setJobRunning, getProject_appendJobLog]
      rw [hp, ht]
      simp only []
      rw [hok']
      simp only []
      constructor
      · rw [projectRecord_setJobSucceeded, projectRecord_appendJobLog, ← hid2, hst]
        rfl
      · cases hgj : (deploy env cwd cfg proj jobID
            ((st.setJobRunning jobID "init" env.now).appendJobLog jobID
              (env.nowStr ++ " job started\n"))).store.getJob jobID with
        | none =>
          rw [jobSE, hgj] at hjse
          simp at hjse
        | some j =>
          rw [getJob_setJobSucceeded, getJob_appendJobLog, hgj]
          rfl

/-- A queued deploy job and a store holding it, for the C4 witness. -/
def jobDeployFix : Job :=
  { jobDeleteFix with id := "jp", jobType := "deploy" }

def stDeployFix : Store := ⟨[projFix], [jobDeployFix]⟩

set_option maxRecDepth 8000 in
/-- Witness for `deploy_marks_outcome`: a deploy in which every step succeeds
leaves the project `running` and the job `succeeded`. -/
theorem deploy_marks_outcome_witness :
    stDeployFix.getJob "jp" = some jobDeployFix ∧
    jobDeployFix.status = "queued" ∧
    jobDeployFix.jobType = "deploy" ∧
    stDeployFix.projectRecord "p1" = some projFix ∧
    projFix.deletedAt = none ∧
    ((deploy envFix "/cwd" cfgFix projFix "jp"
        ((stDeployFix.setJobRunning "jp" "init" envFix.now).appendJobLog "jp"
          (envFix.nowStr ++ " job started\n"))).res = .ok () →
      ((runJob envFix "/cwd" cfgFix stDeployFix "jp").1.projectRecord "p1").map
          (fun q => q.lastStatus) = some "running" ∧
      ((runJob envFix "/cwd" cfgFix stDeployFix "jp").1.getJob "jp").map
          (fun j => j.status) = some "succeeded") ∧
    (deploy envFix "/cwd" cfgFix projFix "jp"
        ((stDeployFix.setJobRunning "jp" "init" envFix.now).appendJobLog "jp"
          (envFix.nowStr ++ " job started\n"))).res = .ok () :=
  ⟨rfl, rfl, rfl, rfl, rfl,
   (deploy_marks_outcome envFix "/cwd" cfgFix stDeployFix "jp" jobDeployFix projFix
      rfl rfl rfl rfl rfl).2,
   by decide⟩

/-! ## Claim C1 -/

theorem base_ne_empty_of_abs (base : String) (h : filepathIsAbs base = true) :
    base ≠ "" := by
  intro he
  rw [he] at h
  exact absurd h (by decide)

theorem filepathIsAbs_join (base r : String) (h : filepathIsAbs base = true) :
    filepathIsAbs (filepathJoin base r) = true := by
  have hb : base ≠ "" := base_ne_empty_of_abs base h
  unfold filepathJoin
  rw [if_neg (by simp [hb]), if_neg hb]
  by_cases hr : r = ""
  · rw [if_pos hr]
    exact isRooted_cleanChars base.data h
  · rw [if_neg hr]
    show isRooted (cleanChars (base.data ++ '/' :: r.data)) = true
    exact isRooted_cleanChars _ (isRooted_append _ _ h)

theorem filepathClean_join (base r : String) (h : filepathIsAbs base = true) :
    filepathClean (filepathJoin base r) = filepathJoin base r := by
  have hb : base ≠ "" := base_ne_empty_of_abs base h
  unfold filepathJoin
  rw [if_neg (by simp [hb]), if_neg hb]
  by_cases hr : r = ""
  · rw [if_pos hr]
    show filepathClean ⟨cleanChars base.data⟩ = ⟨cleanChars base.data⟩
    unfold filepathClean
    exact congrArg String.mk (cleanChars_idem base.data h)
  · rw [if_neg hr]
    unfold filepathClean
    exact congrArg String.mk (cleanChars_idem _ (isRooted_append _ _ h))

/-- An accepted `SafeJoin`: all guards pass, the result is the plain join. -/
theorem safeJoin_accepts (cwd base rel : String)
    (habs : filepathIsAbs base = true) (hclean : filepathClean base = base)
    (h1 : stringsTrimSpace rel ≠ "") (h2 : stringsTrimSpace rel ≠ ".")
    (hdd : dotdot ∉ splitOnChar '/' (replaceBackslashes (stringsTrimSpace rel)).data)
    (hrel : filepathIsAbs (replaceBackslashes (stringsTrimSpace rel)) = false) :
    SafeJoin cwd base rel =
      .ok (filepathJoin base (replaceBackslashes (stringsTrimSpace rel))) := by
  have hb : base ≠ "" := base_ne_empty_of_abs base habs
  unfold SafeJoin
  rw [if_neg hb]
  dsimp only
  rw [if_neg (by simp [h1, h2])]
  rw [if_neg (by
    simp only [List.any_eq_true, decide_eq_true_eq, not_exists, not_and]
    intro x hx hxd
    exact hdd (hxd ▸ hx))]
  rw [if_neg (by simp [hrel])]
  have habsBase : filepathAbs cwd base = base := by
    unfold filepathAbs
    rw [if_pos habs]
    exact hclean
  have habsJoined : filepathAbs cwd (filepathJoin base (replaceBackslashes (stringsTrimSpace rel))) =
      filepathJoin base (replaceBackslashes (stringsTrimSpace rel)) := by
    unfold filepathAbs
    rw [if_pos (filepathIsAbs_join base _ habs)]
    exact filepathClean_join base _ habs
  rw [habsBase, habsJoined]
  obtain ⟨res, hok, hne, hpre⟩ :=
    rel_join_ok base (replaceBackslashes (stringsTrimSpace rel)) habs hclean hdd
  rw [hok]
  simp only []
  rw [if_neg (by simp [hne, hpre])]

/-- **C1** (amended) — `SafeJoin(base, rel)` behaves as follows: an empty base
is an error; an empty or `.` rel (after trimming) returns the cleaned base;
a rel containing a `..` path segment is rejected outright — even when its
resolved joined path stays inside the base (see
`safeJoin_inbase_rejected_cex`); an absolute rel is rejected; any remaining
rel (for an absolute, cleaned base) is accepted, returning
`filepath.Join(base, rel)` normalized, and that accepted path never falls
outside the base. -/
theorem safeJoin_behavior (cwd base rel : String) :
    (base = "" → SafeJoin cwd base rel = .error "base is required") ∧
    (base ≠ "" → (stringsTrimSpace rel = "" ∨ stringsTrimSpace rel = ".") →
      SafeJoin cwd base rel = .ok (filepathClean base)) ∧
    (base ≠ "" → stringsTrimSpace rel ≠ "" → stringsTrimSpace rel ≠ "." →
      dotdot ∈ splitOnChar '/' (replaceBackslashes (stringsTrimSpace rel)).data →
      SafeJoin cwd base rel = .error "invalid path: contains '..'") ∧
    (base ≠ "" → stringsTrimSpace rel ≠ "" → stringsTrimSpace rel ≠ "." →
      dotdot ∉ splitOnChar '/' (replaceBackslashes (stringsTrimSpace rel)).data →
      filepathIsAbs (replaceBackslashes (stringsTrimSpace rel)) = true →
      SafeJoin cwd base rel = .error "invalid path: must be relative") ∧
    (filepathIsAbs base = true → filepathClean base = base →
      stringsTrimSpace rel ≠ "" → stringsTrimSpace rel ≠ "." →
      dotdot ∉ splitOnChar '/' (replaceBackslashes (stringsTrimSpace rel)).data →
      filepathIsAbs (replaceBackslashes (stringsTrimSpace rel)) = false →
      SafeJoin cwd base rel =
        .ok (filepathJoin base (replaceBackslashes (stringsTrimSpace rel))) ∧
      escapesDir base (filepathJoin base (replaceBackslashes (stringsTrimSpace rel))) = false) := by
  refine ⟨?_, ?_, ?_, ?_, ?_⟩
  · intro hb
    unfold SafeJoin
    rw [if_pos hb]
  · intro hb hrel
    unfold SafeJoin
    rw [if_neg hb]
    dsimp only
    rw [if_pos (by rcases hrel with h | h <;> simp [h])]
  · intro hb h1 h2 hdd
    unfold SafeJoin
    rw [if_neg hb]
    dsimp only
    rw [if_neg (by simp [h1, h2])]
    rw [if_pos (by
      simp only [List.any_eq_true, decide_eq_true_eq]
      exact ⟨dotdot, hdd, rfl⟩)]
  · intro hb h1 h2 hdd habs
    unfold SafeJoin
    rw [if_neg hb]
    dsimp only
    rw [if_neg (by simp [h1, h2])]
    rw [if_neg (by
      simp only [List.any_eq_true, decide_eq_true_eq, not_exists, not_and]
      intro x hx hxd
      exact hdd (hxd ▸ hx))]
    rw [if_pos (by simp [habs])]
  · intro habs hclean h1 h2 hdd hrel
    exact ⟨safeJoin_accepts cwd base rel habs hclean h1 h2 hdd hrel,
           join_no_escape base (replaceBackslashes (stringsTrimSpace rel)) habs hclean hdd⟩

/-- C1 counterexample: `a/../b` is a relative path whose resolved joined path
stays within the base (`/base/a/../b` resolves to `/base/b`, which does not
escape `/base`), yet `SafeJoin` rejects it instead of accepting it with the
joined path. -/
theorem safeJoin_inbase_rejected_cex :
    filepathIsAbs "a/../b" = false ∧
    filepathJoin "/base" "a/../b" = "/base/b" ∧
    escapesDir "/base" (filepathJoin "/base" "a/../b") = false ∧
    SafeJoin "/cwd" "/base" "a/../b" = .error "invalid path: contains '..'" := by
  refine ⟨by decide, by decide, by decide, by decide⟩

/-- Witness for `safeJoin_behavior`, exercising every branch at concrete
inputs. -/
theorem safeJoin_behavior_witness :
    SafeJoin "/cwd" "" "x" = .error "base is required" ∧
    SafeJoin "/cwd" "/base" " . " = .ok (filepathClean "/base") ∧
    SafeJoin "/cwd" "/base" "a/../b" = .error "invalid path: contains '..'" ∧
    SafeJoin "/cwd" "/base" "/abs" = .error "invalid path: must be relative" ∧
    (SafeJoin "/cwd" "/base" "a/b" =
        .ok (filepathJoin "/base" (replaceBackslashes (stringsTrimSpace "a/b"))) ∧
     escapesDir "/base" (filepathJoin "/base" (replaceBackslashes (stringsTrimSpace "a/b"))) = false) :=
  ⟨(safeJoin_behavior "/cwd" "" "x").1 rfl,
   (safeJoin_behavior "/cwd" "/base" " . ").2.1 (by decide) (Or.inr (by decide)),
   (safeJoin_behavior "/cwd" "/base" "a/../b").2.2.1 (by decide) (by decide) (by decide)
     (by decide),
   (safeJoin_behavior "/cwd" "/base" "/abs").2.2.2.1 (by decide) (by decide) (by decide)
     (by decide) (by decide),
   (safeJoin_behavior "/cwd" "/base" "a/b").2.2.2.2 (by decide) (by decide) (by decide)
     (by decide) (by decide) (by decide)⟩

/-! ## Claim C8 -/

/-- Outcome of processing one line of a compose document: a final answer or
the state carried to the next line. -/
inductive CRes where
  | done (p : Int × Int)
  | cont (s : CState)
deriving DecidableEq, Repr

/-- The service-exit decision on one line: while inside a service, a non-`-`
line at the same or shallower indentation exits it — ending the whole scan
with `(0, 0)` when a specific service was requested, clearing the state
otherwise. -/
def composeExitStep (serviceName : String) (s : CState) (trimmed : List Char)
    (indent : Int) : CRes :=
  if s.inService ∧ 0 ≤ s.serviceIndent ∧ indent ≤ s.serviceIndent ∧
      ¬ isPreOf "-".data trimmed then
    if serviceName ≠ "" then .done (0, 0)
    else .cont { s with inService := false, inPorts := false }
  else .cont s

/-- Single-line transition of `api.parseComposePort`, in the order the code
applies its tests: blank/comment skip; the `services:` marker; the in-service
`ports:` marker (which precedes — and therefore bypasses — the service-exit
check); a `- …` entry while in a `ports:` list, final on the first pair with
both values in `[1, 65535]`; the `ports:`-exit reset; service-name detection
(reserved compose keywords are never service names); and last the
service-exit check. -/
def composeStep (serviceName : String) (s : CState) (line : List Char) : CRes :=
  let trimmed := trimSpaceChars line
  if trimmed.isEmpty || isPreOf "#".data trimmed then .cont s
  else
    let indent := lineIndent line
    if trimmed = "services:".data then .cont { s with inServices := true, serviceIndent := -1 }
    else if s.inService ∧ trimmed = "ports:".data then .cont { s with inPorts := true }
    else
      match (if s.inPorts ∧ isPreOf "-".data trimmed then composePortEntry trimmed else none) with
      | some pair => .done pair
      | none =>
        let s := if s.inPorts ∧ ¬ isPreOf "-".data trimmed then { s with inPorts := false } else s
        if s.inServices ∧ isSufOf ":".data trimmed ∧ 0 < indent ∧ indent ≤ 4 then
          let svcName : String := ⟨trimmed.dropLast⟩
          if isComposeKeyword svcName then .cont s
          else if serviceName = "" ∨ svcName = serviceName then
            .cont { s with inService := true, serviceIndent := indent, inPorts := false }
          else composeExitStep serviceName s trimmed indent
        else composeExitStep serviceName s trimmed indent

/-- The answer produced on a line, if any. -/
def composeHit (serviceName : String) (s : CState) (line : List Char) :
    Option (Int × Int) :=
  match composeStep serviceName s line with
  | .done p => some p
  | .cont _ => none

/-- The state carried past a line that produced no answer. -/
def composeAdvance (serviceName : String) (s : CState) (line : List Char) : CState :=
  match composeStep serviceName s line with
  | .done _ => s
  | .cont s' => s'

/-- First-hit scan: run the state transition over all lines and return the
first per-line answer, defaulting to `(0, 0)`. -/
def scanLines (hit : CState → List Char → Option (Int × Int))
    (adv : CState → List Char → CState) (s : CState) (lines : List (List Char)) :
    Int × Int :=
  (((lines.scanl adv s).zip lines).findSome? (fun p => hit p.1 p.2)).getD (0, 0)

theorem exitCheck_agree (serviceName : String) (s : CState) (trimmed : List Char)
    (indent : Int) (rest : List (List Char)) :
    composeLoop.exitCheck serviceName s trimmed indent rest =
      match composeExitStep serviceName s trimmed indent with
      | .done p => p
      | .cont s' => composeLoop serviceName s' rest := by
  unfold composeLoop.exitCheck composeExitStep
  repeat' split
  all_goals simp_all

theorem composeStep_agree (serviceName : String) (s : CState) (line : List Char)
    (rest : List (List Char)) :
    composeLoop serviceName s (line :: rest) =
      match composeStep serviceName s line with
      | .done p => p
      | .cont s' => composeLoop serviceName s' rest := by
  simp only [composeLoop, composeStep]
  repeat' split
  all_goals simp_all [exitCheck_agree]

theorem scanLines_cons (hit : CState → List Char → Option (Int × Int))
    (adv : CState → List Char → CState) (s : CState) (line : List Char)
    (rest : List (List Char)) :
    scanLines hit adv s (line :: rest) =
      match hit s line with
      | some p => p
      | none => scanLines hit adv (adv s line) rest := by
  unfold scanLines
  rw [List.scanl_cons]
  cases hh : hit s line with
  | some p => simp [List.findSome?_cons, hh]
  | none => simp [List.findSome?_cons, hh]

theorem composeLoop_eq_scan (serviceName : String) :
    ∀ (lines : List (List Char)) (s : CState),
      composeLoop serviceName s lines =
        scanLines (composeHit serviceName) (composeAdvance serviceName) s lines
  | [], s => by
    simp [composeLoop, scanLines]
  | line :: rest, s => by
    rw [composeStep_agree, scanLines_cons]
    have h1 : composeHit serviceName s line =
        match composeStep serviceName s line with
        | .done p => some p
        | .cont _ => none := rfl
    have h2 : composeAdvance serviceName s line =
        match composeStep serviceName s line with
        | .done _ => s
        | .cont s' => s' := rfl
    cases hstep : composeStep serviceName s line with
    | done p =>
      rw [hstep] at h1
      simp [h1]
    | cont s' =>
      rw [hstep] at h1 h2
      simp only [] at h1 h2
      rw [h1, h2]
      simp only []
      exact composeLoop_eq_scan serviceName rest s'

/-- **C8** (amended) — `parseComposePort` is the first-hit scan of the
per-line transition `composeStep` from the initial state: lines are handled
in the order blank/comment skip, `services:` marker, in-service `ports:`
marker, `- "H:C"` entry (returning the first pair with both values in
`[1, 65535]`), `ports:` exit, service-name detection (reserved compose keys
are never service names), then the service-exit check.  Because the
in-service `ports:` marker is tested before the service-exit check, a line
exactly `ports:` at any indentation — including one that, being at the same
or shallower indent than the service, should exit it — re-enters the current
service's ports context instead of exiting (see
`parseComposePort_exit_bypass_cex`); an empty text yields `(0, 0)`. -/
theorem parseComposePort_eq_scan (content serviceName : String) :
    parseComposePort content serviceName =
      if content = "" then (0, 0)
      else scanLines (composeHit serviceName) (composeAdvance serviceName)
        CState.init (splitOnChar '\n' content.data) := by
  unfold parseComposePort
  by_cases h : content = ""
  · rw [if_pos h, if_pos h]
  · rw [if_neg h, if_neg h]
    exact composeLoop_eq_scan serviceName _ _

/-- Single-line transition as the claim describes it: the service boundary
(exit on a same-or-shallower non-`-` line, stopping the scan when a specific
service was requested) applies before the in-service `ports:` marker, so a
`ports:` line outside the service's indentation exits the service rather
than re-entering its ports context. -/
def composeStepClaim (serviceName : String) (s : CState) (line : List Char) : CRes :=
  let trimmed := trimSpaceChars line
  if trimmed.isEmpty || isPreOf "#".data trimmed then .cont s
  else
    let indent := lineIndent line
    if trimmed = "services:".data then .cont { s with inServices := true, serviceIndent := -1 }
    else
      match composeExitStep serviceName s trimmed indent with
      | .done p => .done p
      | .cont s =>
        if s.inService ∧ trimmed = "ports:".data then .cont { s with inPorts := true }
        else
          match (if s.inPorts ∧ isPreOf "-".data trimmed then composePortEntry trimmed else none) with
          | some pair => .done pair
          | none =>
            let s := if s.inPorts ∧ ¬ isPreOf "-".data trimmed then { s with inPorts := false } else s
            if s.inServices ∧ isSufOf ":".data trimmed ∧ 0 < indent ∧ indent ≤ 4 then
              let svcName : String := ⟨trimmed.dropLast⟩
              if isComposeKeyword svcName then .cont s
              else if serviceName = "" ∨ svcName = serviceName then
                .cont { s with inService := true, serviceIndent := indent, inPorts := false }
              else .cont s
            else .cont s

/-- Driver for the claim-side machine. -/
def runClaim (serviceName : String) : CState → List (List Char) → Int × Int
  | _, [] => (0, 0)
  | s, line :: rest =>
    match composeStepClaim serviceName s line with
    | .done p => p
    | .cont s' => runClaim serviceName s' rest

/-- `parseComposePort` as the claim describes it. -/
def parseComposePortClaim (content serviceName : String) : Int × Int :=
  if content = "" then (0, 0)
  else runClaim serviceName CState.init (splitOnChar '\n' content.data)

set_option maxRecDepth 4000 in
/-- C8 counterexample: in a document whose `ports:` list sits at column 0 —
outside service `web`, at shallower indentation than the service, where the
claimed service-boundary rule stops the scan for a requested service — the
code re-enters the ports context through the `ports:` line and returns the
out-of-service pair `(8080, 80)`, while the claimed behavior yields
`(0, 0)`. -/
theorem parseComposePort_exit_bypass_cex :
    parseComposePort "services:\n  web:\n    image: x\nports:\n- \"8080:80\"" "web" =
      (8080, 80) ∧
    parseComposePortClaim "services:\n  web:\n    image: x\nports:\n- \"8080:80\"" "web" =
      (0, 0) := by
  constructor
  · unfold parseComposePort
    rw [if_neg (by decide)]
    rw [composeLoop_eq_scan]
    decide
  · decide

end LastDeploy
